import Mathlib

/-!
Verification of the proto-http-parser core (the nom-based proto3 parser in
`src/parser.rs` and the `google.api.http` route extractor in `src/extractor.rs`)
against its natural-language specification.

The Rust code is shallowly embedded: every `def` below mirrors one Rust
function or data structure of the repository.  Machine integers are modelled
as `Nat`/`Int` with the exact overflow behaviour of the Rust code spelled out
(`u32`/`i32` string parsing fails on overflow and the code falls back to `0`);
`f64` literal values are modelled exactly as rationals (rounding is irrelevant
to every property considered here); fallible Rust functions returning
`Result` are embedded as `Except`, `Option`-returning ones as `Option`.
`HashMap<String, OptionValue>` message literals are embedded as association
lists; where the Rust code iterates such a map (an unspecified, randomised
order) the embedding makes the iteration order an explicit list argument.
-/

namespace ProtoHttp

/-! ## Core data model, embedded from `src/core/data.rs`.

The Rust field `ProtoFile.syntax` is renamed `syntaxVersion` and
`RpcMethod.http_annotation` / `HttpAnnotation` are shortened to `httpAnnot` /
`HttpAnnot`; everything else keeps its source name. -/

/-- Protocol Buffer version (`ProtocolVersion` in `data.rs`). -/
inductive ProtocolVersion where
  | Proto2
  | Proto3
deriving Repr, DecidableEq

/-- Type of import (`ImportType` in `data.rs`). -/
inductive ImportType where
  | Normal
  | Public
  | Weak
deriving Repr, DecidableEq

/-- Import statement (`Import` in `data.rs`). -/
structure Import where
  import_type : ImportType
  path : String
deriving Repr, DecidableEq

/-- Option value (`OptionValue` in `data.rs`).  The Rust
`MessageLiteral(HashMap<String, OptionValue>)` is embedded as an association
list of key/value pairs; the parser builds it with `HashMap`-collect
semantics (`hashMapCollect` below). -/
inductive OptionValue where
  | string (s : String)
  | number (q : ℚ)
  | boolean (b : Bool)
  | identifier (s : String)
  | messageLiteral (fields : List (String × OptionValue))
deriving Repr

/-- Protocol Buffer option (`ProtoOption` in `data.rs`). -/
structure ProtoOption where
  name : String
  value : OptionValue
deriving Repr

/-- HTTP method (`HttpMethod` in `data.rs`). -/
inductive HttpMethod where
  | Get
  | Post
  | Put
  | Patch
  | Delete
  | Custom (method : String)
deriving Repr, DecidableEq

/-- Additional HTTP binding (`HttpBinding` in `data.rs`). -/
structure HttpBinding where
  method : HttpMethod
  path : String
  body : Option String
deriving Repr, DecidableEq

/-- HTTP annotation from google.api.http (`HttpAnnotation` in `data.rs`). -/
structure HttpAnnot where
  method : HttpMethod
  path : String
  body : Option String
  additional_bindings : List HttpBinding
deriving Repr, DecidableEq

/-- Comment type (`CommentType` in `data.rs`). -/
inductive CommentType where
  | Leading
  | Trailing
  | Detached
deriving Repr, DecidableEq

/-- Documentation comment (`Comment` in `data.rs`). -/
structure Comment where
  text : String
  comment_type : CommentType
deriving Repr, DecidableEq

/-- Type reference (`TypeReference` in `data.rs`). -/
structure TypeReference where
  name : String
  package : Option String
  is_stream : Bool
deriving Repr, DecidableEq

/-- Create a new type reference (`TypeReference::new`). -/
def TypeReference.new (name : String) : TypeReference :=
  { name := name, package := none, is_stream := false }

/-- RPC method definition (`RpcMethod` in `data.rs`); the Rust field
`http_annotation` is renamed `httpAnnot`. -/
structure RpcMethod where
  name : String
  input_type : TypeReference
  output_type : TypeReference
  options : List ProtoOption
  comments : List Comment
  httpAnnot : Option HttpAnnot
deriving Repr

/-- Service definition (`Service` in `data.rs`). -/
structure Service where
  name : String
  methods : List RpcMethod
  options : List ProtoOption
  comments : List Comment
deriving Repr

/-- Field label (`FieldLabel` in `data.rs`). -/
inductive FieldLabel where
  | Optional
  | Required
  | Repeated
deriving Repr, DecidableEq

/-- Field type (`FieldType` in `data.rs`). -/
inductive FieldType where
  | Double | Float | Int32 | Int64 | Uint32 | Uint64
  | Sint32 | Sint64 | Fixed32 | Fixed64 | Sfixed32 | Sfixed64
  | Bool | String | Bytes
  | MessageOrEnum (t : TypeReference)
deriving Repr, DecidableEq

/-- Message field definition (`Field` in `data.rs`); `number` is the Rust
`u32` value, always `< 2^32`. -/
structure Field where
  name : String
  field_type : FieldType
  number : Nat
  label : FieldLabel
  options : List ProtoOption
  comments : List Comment
deriving Repr

/-- Enum value definition (`EnumValue` in `data.rs`); `number` is the Rust
`i32` value. -/
structure EnumValue where
  name : String
  number : Int
  options : List ProtoOption
  comments : List Comment
deriving Repr

/-- Enum definition (`Enum` in `data.rs`). -/
structure Enum where
  name : String
  values : List EnumValue
  options : List ProtoOption
  comments : List Comment
deriving Repr

/-- Message type definition (`Message` in `data.rs`). -/
inductive Message where
  | mk (name : String) (fields : List Field) (nested_messages : List Message)
       (nested_enums : List Enum) (options : List ProtoOption)
       (comments : List Comment)
deriving Repr

/-- Message name accessor. -/
def Message.name : Message → String
  | .mk n _ _ _ _ _ => n

/-- Message fields accessor. -/
def Message.fields : Message → List Field
  | .mk _ f _ _ _ _ => f

/-- Nested messages accessor. -/
def Message.nested_messages : Message → List Message
  | .mk _ _ m _ _ _ => m

/-- Nested enums accessor. -/
def Message.nested_enums : Message → List Enum
  | .mk _ _ _ e _ _ => e

/-- Complete Protocol Buffer file (`ProtoFile` in `data.rs`); the Rust field
`syntax` is renamed `syntaxVersion`. -/
structure ProtoFile where
  syntaxVersion : ProtocolVersion
  package : Option String
  imports : List Import
  options : List ProtoOption
  services : List Service
  messages : List Message
  enums : List Enum
deriving Repr

/-- Parameter type (`ParameterType` in `data.rs`). -/
inductive ParameterType where
  | String
  | Integer
  | Float
  | Boolean
  | Custom (name : String)
deriving Repr, DecidableEq

/-- Path parameter (`PathParameter` in `data.rs`). -/
structure PathParameter where
  name : String
  param_type : ParameterType
  required : Bool
deriving Repr, DecidableEq

/-- Create a new path parameter (`PathParameter::new` in `data.rs`):
`required` is always set to `true`. -/
def PathParameter.new (name : String) (param_type : ParameterType) : PathParameter :=
  { name := name, param_type := param_type, required := true }

/-- Query parameter (`QueryParameter` in `data.rs`). -/
structure QueryParameter where
  name : String
  param_type : ParameterType
  required : Bool
deriving Repr, DecidableEq

/-- Create an optional query parameter (`QueryParameter::optional`). -/
def QueryParameter.optional (name : String) (param_type : ParameterType) : QueryParameter :=
  { name := name, param_type := param_type, required := false }

/-- Request body configuration (`RequestBody` in `data.rs`). -/
structure RequestBody where
  field : Option String
  content_type : String
  is_entire_message : Bool
deriving Repr, DecidableEq

/-- Request body for the entire message (`RequestBody::entire_message`). -/
def RequestBody.entire_message : RequestBody :=
  { field := none, content_type := "application/json", is_entire_message := true }

/-- Request body for a specific field (`RequestBody::field`). -/
def RequestBody.fieldBody (field_name : String) : RequestBody :=
  { field := some field_name, content_type := "application/json", is_entire_message := false }

/-- Structured HTTP route (`HttpRoute`): exactly the fields the extractor's
route construction in `extractor.rs` populates (the `input_type` field
declared in `data.rs` is never set by `extract_routes`). -/
structure HttpRoute where
  service_name : String
  method_name : String
  http_method : HttpMethod
  path_template : String
  path_parameters : List PathParameter
  query_parameters : List QueryParameter
  request_body : Option RequestBody
  response_type : TypeReference
deriving Repr, DecidableEq

/-- Convert HTTP method to string (`HttpMethod::as_str` in `data.rs`). -/
def HttpMethod.asStr : HttpMethod → String
  | .Get => "GET"
  | .Post => "POST"
  | .Put => "PUT"
  | .Patch => "PATCH"
  | .Delete => "DELETE"
  | .Custom method => method

/-- Check whether a route has a request body (`HttpRoute::has_request_body`). -/
def HttpRoute.has_request_body (r : HttpRoute) : Bool :=
  r.request_body.isSome

/-- Validation errors (`ValidationError` in `src/core/errors.rs`), restricted
to the variants the parser/extractor core can produce; the Rust variant
`InvalidHttpAnnotation` is shortened to `invalidHttpAnnot`. -/
inductive ValidationError where
  | invalidHttpAnnot (message : String) (line : Nat)
  | conflictingRoutes (route1 : String) (route2 : String)
  | invalidPathParameter (param : String) (path : String)
deriving Repr, DecidableEq

/-- Parse errors (`ParseError` in `src/core/errors.rs`), restricted to the
variants the embedded core can produce. -/
inductive ParseError where
  | invalidSyntax (message : String)
  | fileNotFound (path : String)
  | importNotFound (import_path : String)
  | circularImport (cycle : List String)
deriving Repr, DecidableEq

/-- Extractor configuration (`ExtractorConfig` in `src/core/config.rs`). -/
structure ExtractorConfig where
  infer_query_params : Bool
  common_query_params : List String
  validate_http_methods : Bool
  allow_custom_methods : Bool
deriving Repr, DecidableEq

/-- Default extractor configuration (`ExtractorConfig::default`). -/
def ExtractorConfig.default : ExtractorConfig :=
  { infer_query_params := true
    common_query_params := ["page", "limit", "offset", "sort", "order", "filter", "search"]
    validate_http_methods := true
    allow_custom_methods := false }

end ProtoHttp

namespace ProtoHttp

/-! ## HTTP annotation extractor, embedded from `src/extractor.rs`.

`GoogleApiHttpExtractor` holds only the configuration and a fixed regex
`\{([^}]+)\}`; the embedding passes the configuration explicitly and embeds
the regex's `captures_iter` as the scanner `regexCaptures`. -/

/-- Character-list prefix test, helper for `strContains`. -/
def leadsWith : List Char → List Char → Bool
  | [], _ => true
  | _ :: _, [] => false
  | p :: ps, c :: cs => p = c && leadsWith ps cs

/-- Character-list substring occurrence, helper for `strContains`. -/
def occursIn (pat : List Char) : List Char → Bool
  | [] => leadsWith pat []
  | c :: cs => leadsWith pat (c :: cs) || occursIn pat cs

/-- Character-wise lower-casing (Rust `str::to_lowercase`; the names
involved are ASCII, where the two agree). -/
def toLowerStr (s : String) : String :=
  String.mk (s.data.map Char.toLower)

/-- Character-wise upper-casing (Rust `str::to_uppercase` on ASCII). -/
def toUpperStr (s : String) : String :=
  String.mk (s.data.map Char.toUpper)

/-- Suffix test (Rust `str::ends_with`). -/
def endsWithStr (s pat : String) : Bool :=
  leadsWith pat.data.reverse s.data.reverse

/-- Substring containment test (Rust `str::contains`). -/
def strContains (s pat : String) : Bool :=
  occursIn pat.data s.data

/-- State-machine embedding of `captures_iter` for the regex `\{([^}]+)\}`:
outside a brace group (`none` state) everything up to the next `\x7b` is
skipped; inside (`some acc`) characters other than `\x7d` are accumulated
(including further `\x7b`, which the character class `[^}]` admits); a
closing `\x7d` emits the accumulated capture when it is non-empty (the `+`
requires at least one character, so `\x7b\x7d` matches nothing and scanning
resumes after it). -/
def regexCapturesAux : Option (List Char) → List Char → List String
  | none, [] => []
  | some _, [] => []
  | none, c :: rest =>
    if c = '{' then regexCapturesAux (some []) rest
    else regexCapturesAux none rest
  | some acc, c :: rest =>
    if c = '}' then
      if acc.isEmpty then regexCapturesAux none rest
      else String.mk acc.reverse :: regexCapturesAux none rest
    else regexCapturesAux (some (c :: acc)) rest

/-- All captures of the path-parameter regex `\{([^}]+)\}` in a string. -/
def regexCaptures (s : String) : List String :=
  regexCapturesAux none s.data

/-- Normalize parameter names to valid Rust identifiers
(`normalize_parameter_name`): every dot is replaced by an underscore. -/
def normalizeParameterName (param_name : String) : String :=
  String.mk (param_name.data.map fun c => if c = '.' then '_' else c)

/-- Infer parameter type from parameter name (`infer_parameter_type`). -/
def inferParameterType (param_name : String) : ParameterType :=
  let name := toLowerStr param_name
  if endsWithStr name "_id" || name = "id" then ParameterType.String
  else if strContains name "count" || strContains name "size" || strContains name "limit" then
    ParameterType.Integer
  else if strContains name "rate" || strContains name "ratio" then ParameterType.Float
  else if strContains name "enabled" || strContains name "active" then ParameterType.Boolean
  else ParameterType.String

/-- Loop body of `extract_path_parameters`, processing the regex captures in
order: an empty capture would be rejected as `InvalidPathParameter`, any
other is normalized, typed and collected. -/
def extractPathParametersAux (path_template : String) :
    List String → Except ValidationError (List PathParameter)
  | [] => .ok []
  | cap :: caps =>
    if cap = "" then
      .error (.invalidPathParameter cap path_template)
    else
      let param_name := normalizeParameterName cap
      match extractPathParametersAux path_template caps with
      | .error e => .error e
      | .ok rest => .ok (PathParameter.new param_name (inferParameterType param_name) :: rest)

/-- Extract path parameters from a path template (`extract_path_parameters`
in `extractor.rs`); the input message type is ignored by the source. -/
def extractPathParameters (path_template : String) (_input_message : TypeReference) :
    Except ValidationError (List PathParameter) :=
  extractPathParametersAux path_template (regexCaptures path_template)

/-- Extract query parameters based on configuration
(`extract_query_parameters` in `extractor.rs`). -/
def extractQueryParameters (cfg : ExtractorConfig) (_method : RpcMethod) : List QueryParameter :=
  if !cfg.infer_query_params then []
  else cfg.common_query_params.map fun param_name =>
    QueryParameter.optional param_name (inferParameterType param_name)

/-- Parse HTTP method from option value (`parse_http_method` in
`extractor.rs`): the string is upper-cased before matching, and unknown
methods are admitted as `Custom` only when the configuration allows it. -/
def parseHttpMethod (cfg : ExtractorConfig) (method_str : String) :
    Except ValidationError HttpMethod :=
  let upper := toUpperStr method_str
  if upper = "GET" then .ok HttpMethod.Get
  else if upper = "POST" then .ok HttpMethod.Post
  else if upper = "PUT" then .ok HttpMethod.Put
  else if upper = "PATCH" then .ok HttpMethod.Patch
  else if upper = "DELETE" then .ok HttpMethod.Delete
  else if cfg.allow_custom_methods then .ok (HttpMethod.Custom upper)
  else .error (.invalidHttpAnnot ("Unsupported HTTP method: " ++ upper) 0)

/-- Parse additional HTTP bindings (`parse_additional_bindings` in
`extractor.rs`): explicitly a stub in the source, always `Ok(Vec::new())`. -/
def parseAdditionalBindings (_value : OptionValue) : Except ValidationError (List HttpBinding) :=
  .ok []

/-- The `if let (Some(method), Some(path))` conclusion of
`parse_http_option` after its entry loop. -/
def finishHttpOption (hm : Option HttpMethod) (hp hb : Option String)
    (habs : List HttpBinding) : Except ValidationError (Option HttpAnnot) :=
  match hm, hp with
  | some m, some p => .ok (some { method := m, path := p, body := hb, additional_bindings := habs })
  | _, _ => .error (.invalidHttpAnnot "Missing HTTP method or path" 0)

/-- One iteration of the `for (key, value) in fields` loop of
`parse_http_option`, updating the mutable locals
`(http_method, path, body, additional_bindings)`. -/
def parseHttpOptionStep (cfg : ExtractorConfig)
    (st : Option HttpMethod × Option String × Option String × List HttpBinding)
    (e : String × OptionValue) :
    Except ValidationError (Option HttpMethod × Option String × Option String × List HttpBinding) :=
  if e.1 = "get" || e.1 = "post" || e.1 = "put" || e.1 = "patch" || e.1 = "delete" then
    match e.2 with
    | .string path_str =>
      (match parseHttpMethod cfg e.1 with
       | .error err => .error err
       | .ok m => .ok (some m, some path_str, st.2.2.1, st.2.2.2))
    | _ => .ok st
  else if e.1 = "body" then
    match e.2 with
    | .string body_str => .ok (st.1, st.2.1, some body_str, st.2.2.2)
    | _ => .ok st
  else if e.1 = "additional_bindings" then
    match parseAdditionalBindings e.2 with
    | .error err => .error err
    | .ok habs2 => .ok (st.1, st.2.1, st.2.2.1, habs2)
  else .ok st

/-- Loop of `parse_http_option` over the message-literal entries, threading
the mutable locals as a state tuple. -/
def parseHttpOptionAux (cfg : ExtractorConfig) :
    List (String × OptionValue) →
    Option HttpMethod × Option String × Option String × List HttpBinding →
    Except ValidationError (Option HttpAnnot)
  | [], st => finishHttpOption st.1 st.2.1 st.2.2.1 st.2.2.2
  | e :: rest, st =>
    match parseHttpOptionStep cfg st e with
    | .error err => .error err
    | .ok st2 => parseHttpOptionAux cfg rest st2

/-- Parse HTTP option value into an annotation (`parse_http_option` in
`extractor.rs`).  The Rust loop iterates a `HashMap`; the embedding receives
the map as an association list in some iteration order. -/
def parseHttpOption (cfg : ExtractorConfig) (option_value : OptionValue) :
    Except ValidationError (Option HttpAnnot) :=
  match option_value with
  | .messageLiteral fields => parseHttpOptionAux cfg fields (none, none, none, [])
  | _ => .error (.invalidHttpAnnot "Invalid HTTP annotation format" 0)

/-- Find the first option literally named `google.api.http` (the option scan
inside `extract_http_annotation`). -/
def findHttpOption : List ProtoOption → Option OptionValue
  | [] => none
  | o :: os => if o.name = "google.api.http" then some o.value else findHttpOption os

/-- Extract the HTTP annotation of a method (`extract_http_annotation` in
`extractor.rs`): a directly populated `http_annotation` field wins, otherwise
the method options are scanned. -/
def extractHttpAnnot (cfg : ExtractorConfig) (method : RpcMethod) :
    Except ValidationError (Option HttpAnnot) :=
  match method.httpAnnot with
  | some a => .ok (some a)
  | none =>
    match findHttpOption method.options with
    | some v => parseHttpOption cfg v
    | none => .ok none

/-- Determine request body configuration (`determine_request_body` in
`extractor.rs`). -/
def determineRequestBody (_method : RpcMethod) (a : HttpAnnot) : Option RequestBody :=
  match a.method with
  | .Post | .Put | .Patch =>
    match a.body with
    | some body_field =>
      if body_field = "*" then some RequestBody.entire_message
      else some (RequestBody.fieldBody body_field)
    | none => some RequestBody.entire_message
  | _ => none

/-- Character scan of `validate_path_template`, tracking `brace_count` and
`in_param` exactly as the Rust loop does, with the final unmatched-opening
check at end of string. -/
def scanBraces : Int → Bool → List Char → Except ValidationError Unit
  | brace_count, _, [] =>
    if brace_count ≠ 0 then
      .error (.invalidHttpAnnot "Unmatched opening brace in path template" 0)
    else .ok ()
  | brace_count, in_param, c :: rest =>
    if c = '{' then
      if in_param then .error (.invalidHttpAnnot "Nested braces are not allowed in path template" 0)
      else scanBraces (brace_count + 1) true rest
    else if c = '}' then
      if brace_count - 1 < 0 then
        .error (.invalidHttpAnnot "Unmatched closing brace in path template" 0)
      else scanBraces (brace_count - 1) false rest
    else scanBraces brace_count in_param rest

/-- Validate path template syntax (`validate_path_template` in
`extractor.rs`). -/
def validatePathTemplate (path_template : String) : Except ValidationError Unit :=
  if path_template = "" then .error (.invalidHttpAnnot "Empty path template" 0)
  else if !leadsWith "/".data path_template.data then
    .error (.invalidHttpAnnot "Path template must start with \'/\'" 0)
  else scanBraces 0 false path_template.data

/-- Sequential accumulation with early error, as the nested `for` loops with
`?` in `extract_routes` do. -/
def exceptConcatMap (f : α → Except ε (List β)) : List α → Except ε (List β)
  | [] => .ok []
  | x :: xs =>
    match f x with
    | .error e => .error e
    | .ok ys =>
      match exceptConcatMap f xs with
      | .error e => .error e
      | .ok zs => .ok (ys ++ zs)

/-- Request body of an additional-binding route, from the inner
`if binding.body.is_some()` match in `extract_routes`. -/
def bindingRequestBody (binding : HttpBinding) : Option RequestBody :=
  if binding.body.isSome then
    match binding.body with
    | some body_field =>
      if body_field = "*" then some RequestBody.entire_message
      else some (RequestBody.fieldBody body_field)
    | none => none
  else none

/-- One route per additional binding (the inner binding loop of
`extract_routes`). -/
def routeForBinding (cfg : ExtractorConfig) (service_name : String) (method : RpcMethod)
    (binding : HttpBinding) : Except ValidationError HttpRoute :=
  match validatePathTemplate binding.path with
  | .error e => .error e
  | .ok _ =>
  match extractPathParameters binding.path method.input_type with
  | .error e => .error e
  | .ok path_parameters =>
  .ok { service_name := service_name
        method_name := method.name
        http_method := binding.method
        path_template := binding.path
        path_parameters := path_parameters
        query_parameters := extractQueryParameters cfg method
        request_body := bindingRequestBody binding
        response_type := method.output_type }

/-- All additional-binding routes of one method, in binding order. -/
def routesForBindings (cfg : ExtractorConfig) (service_name : String) (method : RpcMethod) :
    List HttpBinding → Except ValidationError (List HttpRoute)
  | [] => .ok []
  | b :: bs =>
    match routeForBinding cfg service_name method b with
    | .error e => .error e
    | .ok r =>
      match routesForBindings cfg service_name method bs with
      | .error e => .error e
      | .ok rs => .ok (r :: rs)

/-- Routes contributed by one RPC method: the primary route followed by one
route per additional binding (the per-method body of `extract_routes`). -/
def routesForMethod (cfg : ExtractorConfig) (service_name : String) (method : RpcMethod) :
    Except ValidationError (List HttpRoute) :=
  match extractHttpAnnot cfg method with
  | .error e => .error e
  | .ok none => .ok []
  | .ok (some ann) =>
    match validatePathTemplate ann.path with
    | .error e => .error e
    | .ok _ =>
    match extractPathParameters ann.path method.input_type with
    | .error e => .error e
    | .ok path_parameters =>
    match routesForBindings cfg service_name method ann.additional_bindings with
    | .error e => .error e
    | .ok extra =>
      .ok ({ service_name := service_name
             method_name := method.name
             http_method := ann.method
             path_template := ann.path
             path_parameters := path_parameters
             query_parameters := extractQueryParameters cfg method
             request_body := determineRequestBody method ann
             response_type := method.output_type } :: extra)

/-- Routes of one service, in method order. -/
def routesForService (cfg : ExtractorConfig) (s : Service) :
    Except ValidationError (List HttpRoute) :=
  exceptConcatMap (routesForMethod cfg s.name) s.methods

/-- Extract HTTP routes from a parsed proto file (`extract_routes` in
`extractor.rs`). -/
def extractRoutes (cfg : ExtractorConfig) (proto_file : ProtoFile) :
    Except ValidationError (List HttpRoute) :=
  exceptConcatMap (routesForService cfg) proto_file.services

/-- Conflict signature of a route: `format!("\x7b\x7d \x7b\x7d", method.as_str(), path)`. -/
def routeSignature (r : HttpRoute) : String :=
  r.http_method.asStr ++ " " ++ r.path_template

/-- Loop of `check_route_conflicts`, with the `HashSet` of already-seen
signatures as a list. -/
def checkRouteConflictsAux : List String → List HttpRoute → Except ValidationError Unit
  | _, [] => .ok ()
  | seen, r :: rs =>
    let signature := routeSignature r
    if signature ∈ seen then .error (.conflictingRoutes signature signature)
    else checkRouteConflictsAux (signature :: seen) rs

/-- Check for conflicting routes (`check_route_conflicts` in
`extractor.rs`). -/
def checkRouteConflicts (routes : List HttpRoute) : Except ValidationError Unit :=
  checkRouteConflictsAux [] routes

/-- Per-route validation body of `validate_annotations`: optional HTTP-method
compatibility checks, then path re-validation. -/
def validateRoute (cfg : ExtractorConfig) (r : HttpRoute) : Except ValidationError Unit :=
  match (if cfg.validate_http_methods then
      match r.http_method with
      | .Get | .Delete =>
        if r.has_request_body then
          .error (.invalidHttpAnnot (r.http_method.asStr ++ " methods should not have request bodies") 0)
        else .ok ()
      | .Custom _ =>
        if !cfg.allow_custom_methods then
          .error (.invalidHttpAnnot "Custom HTTP methods are not allowed" 0)
        else .ok ()
      | _ => .ok ()
    else (.ok () : Except ValidationError Unit)) with
  | .error e => .error e
  | .ok _ => validatePathTemplate r.path_template

/-- The per-route loop of `validate_annotations`. -/
def validateRoutesLoop (cfg : ExtractorConfig) : List HttpRoute → Except ValidationError Unit
  | [] => .ok ()
  | r :: rs =>
    match validateRoute cfg r with
    | .error e => .error e
    | .ok _ => validateRoutesLoop cfg rs

/-- Validate extracted annotations (`validate_annotations` in
`extractor.rs`): conflict check first, then per-route checks. -/
def validateAnnots (cfg : ExtractorConfig) (routes : List HttpRoute) :
    Except ValidationError Unit :=
  match checkRouteConflicts routes with
  | .error e => .error e
  | .ok _ => validateRoutesLoop cfg routes

end ProtoHttp

namespace ProtoHttp

/-! ## Parser combinators, embedded from the nom 7 combinators used by
`src/parser.rs`.

A parser is a function from the remaining input (a character list) to
`none` (a recoverable nom `Err::Error`; the source never uses `cut`, so
`Err::Failure` cannot arise, and all its parsers are `complete`, so neither
can `Err::Incomplete`) or `some (rest, value)`.  `many0` and
`separated_list0` reproduce nom 7's infinite-loop checks: an iteration that
consumes no input is a hard parse error. -/

/-- Parser type over character lists. -/
abbrev P (α : Type) : Type := List Char → Option (List Char × α)

/-- nom `char(c)`. -/
def pchar (c : Char) : P Char := fun l =>
  match l with
  | x :: xs => if x = c then some (xs, c) else none
  | [] => none

/-- nom `tag(s)`. -/
def ptag (s : String) : P Unit := fun l =>
  if leadsWith s.data l then some (l.drop s.data.length, ()) else none

/-- nom `opt(p)`. -/
def popt (p : P α) : P (Option α) := fun l =>
  match p l with
  | some (r, a) => some (r, some a)
  | none => some (l, none)

/-- nom `alt((p, q))` for two branches; longer alternations chain it. -/
def pOr (p q : P α) : P α := fun l =>
  match p l with
  | some r => some r
  | none => q l

/-- Result transformation, nom `map`. -/
def pMap (f : α → β) (p : P α) : P β := fun l =>
  match p l with
  | some (r, a) => some (r, f a)
  | none => none

/-- nom `terminated(p, q)`. -/
def pTerminated (p : P α) (q : P β) : P α := fun l => do
  let (l1, a) ← p l
  let (l2, _) ← q l1
  some (l2, a)

/-- Take a non-empty maximal run of characters satisfying `f` (the shape of
nom's `digit1`, `alpha1`, `alphanumeric1`, `multispace1`, `space1`). -/
def span1 (f : Char → Bool) : P (List Char) := fun l =>
  let run := l.takeWhile f
  if run.isEmpty then none else some (l.drop run.length, run)

/-- nom `digit1`, ASCII digits. -/
def digit1 : P (List Char) := span1 Char.isDigit

/-- Whitespace class of nom `multispace0/1`. -/
def isMultispace (c : Char) : Bool :=
  c = ' ' || c = '\t' || c = '\r' || c = '\n'

/-- Whitespace class of nom `space0/1`. -/
def isSpaceTab (c : Char) : Bool := c = ' ' || c = '\t'

/-- nom `multispace0`. -/
def multispace0 : P Unit := fun l => some (l.dropWhile isMultispace, ())

/-- nom `multispace1`. -/
def multispace1 : P Unit := pMap (fun _ => ()) (span1 isMultispace)

/-- nom `space0`. -/
def space0 : P Unit := fun l => some (l.dropWhile isSpaceTab, ())

/-- nom `space1`. -/
def space1 : P Unit := pMap (fun _ => ()) (span1 isSpaceTab)

/-- nom `line_ending`: a line feed or a carriage-return/line-feed pair. -/
def lineEnding : P Unit := fun l =>
  match l with
  | '\n' :: rest => some (rest, ())
  | '\r' :: '\n' :: rest => some (rest, ())
  | _ => none

/-- nom `anychar`. -/
def anychar : P Char := fun l =>
  match l with
  | c :: rest => some (rest, c)
  | [] => none

/-- Helper for `take_until`: split the input at the first occurrence of the
pattern, failing when the pattern never occurs. -/
def takeUntilAux (pat : List Char) : List Char → Option (List Char × List Char)
  | [] => if leadsWith pat [] then some ([], []) else none
  | c :: cs =>
    if leadsWith pat (c :: cs) then some ([], c :: cs)
    else
      match takeUntilAux pat cs with
      | some (before, rest) => some (c :: before, rest)
      | none => none

/-- nom `take_until(pat)`: consume up to (not including) the first
occurrence of `pat`. -/
def takeUntil (pat : String) : P (List Char) := fun l =>
  match takeUntilAux pat.data l with
  | some (before, rest) => some (rest, before)
  | none => none

/-- Fueled body of nom 7's `many0`: stop on inner failure, hard-fail when an
iteration succeeds without consuming (nom's `ErrorKind::Many0` infinite-loop
check).  Each continuing iteration consumes at least one character, so fuel
`l.length + 1` is never exhausted. -/
def many0Aux (p : P α) : Nat → List Char → Option (List Char × List α)
  | 0, _ => none
  | fuel + 1, l =>
    match p l with
    | none => some (l, [])
    | some (l1, a) =>
      if l1.length = l.length then none
      else
        match many0Aux p fuel l1 with
        | some (l2, rest) => some (l2, a :: rest)
        | none => none

/-- nom `many0(p)`. -/
def many0 (p : P α) : P (List α) := fun l => many0Aux p (l.length + 1) l

/-- Fueled loop of nom 7's `separated_list0` after the first element: try
the separator (stopping on failure, hard-failing when it consumes nothing —
nom's `ErrorKind::SeparatedList` check, applied before the element parser
runs), then the element parser (stopping, with the separator un-consumed, on
failure). -/
def sepList0Loop (sep : P β) (p : P α) :
    Nat → List Char → List α → Option (List Char × List α)
  | 0, _, _ => none
  | fuel + 1, i, acc =>
    match sep i with
    | none => some (i, acc.reverse)
    | some (i1, _) =>
      if i1.length = i.length then none
      else
        match p i1 with
        | none => some (i, acc.reverse)
        | some (i2, o) => sepList0Loop sep p fuel i2 (o :: acc)

/-- Sequencing of parser results.  Marked `noinline` so that the compiler
does not duplicate continuations across the `Option` case split (long parser
chains otherwise take exponential compile time); the kernel-level meaning is
exactly `Option.bind`. -/
@[noinline] def pbind (x : Option (List Char × α))
    (f : List Char × α → Option (List Char × β)) : Option (List Char × β) :=
  match x with
  | some p => f p
  | none => none

/-- nom `separated_list0(sep, p)`. -/
def sepList0 (sep : P β) (p : P α) : P (List α) := fun i =>
  match p i with
  | none => some (i, [])
  | some (i1, o) => sepList0Loop sep p (i1.length + 1) i1 [o]

end ProtoHttp

namespace ProtoHttp

/-! ## Grammar parsers, embedded from `src/parser.rs`.

The recursive parts of the grammar (`option_value` / `message_literal` and
`message_definition` / `message_body_item`) are embedded with an explicit
fuel argument that strictly decreases on every nested call; `proto_file`
supplies a fuel larger than any nesting the input could produce (each
nesting level consumes at least one character), so exhaustion is
unreachable and the embedding agrees with the Rust recursion. -/

/-- Numeric value of a run of ASCII digits. -/
def digitsToNat (ds : List Char) : Nat :=
  ds.foldl (fun n c => n * 10 + (c.toNat - 48)) 0

/-- Rust `str::trim` (ASCII whitespace; the inputs considered contain no
Unicode whitespace beyond it). -/
def isRustWhitespace (c : Char) : Bool :=
  c = ' ' || c = '\t' || c = '\n' || c = '\r' || c.toNat = 11 || c.toNat = 12

/-- Rust `str::trim`. -/
def rustTrim (s : String) : String :=
  String.mk (((s.data.dropWhile isRustWhitespace).reverse.dropWhile isRustWhitespace).reverse)

/-- Parse identifier (`identifier` in `parser.rs`):
`recognize(pair(alt((alpha1, tag("_"))), many0(alt((alphanumeric1, tag("_"))))))`,
i.e. the maximal run of `[A-Za-z0-9_]` starting with a letter or underscore. -/
def identifier : P String := fun l =>
  match l with
  | [] => none
  | c :: rest =>
    if c.isAlpha || c = '_' then
      let tail := rest.takeWhile fun ch => ch.isAlphanum || ch = '_'
      some (rest.drop tail.length, String.mk (c :: tail))
    else none

/-- Loop of `full_identifier`: `many0(preceded(char('.'), identifier))`,
re-assembling the recognized text. -/
def fullIdentifierLoop : Nat → List Char → String → Option (List Char × String)
  | 0, _, _ => none
  | fuel + 1, l, acc =>
    match l with
    | '.' :: rest =>
      (match identifier rest with
       | some (rem, s) => fullIdentifierLoop fuel rem (acc ++ "." ++ s)
       | none => some (l, acc))
    | _ => some (l, acc)

/-- Parse full identifier with dots (`full_identifier` in `parser.rs`). -/
def fullIdentifier : P String := fun l =>
  match identifier l with
  | some (rem, s) => fullIdentifierLoop (rem.length + 1) rem s
  | none => none

/-- Parse type name (`type_name` in `parser.rs`). -/
def typeName : P String := fullIdentifier

/-- One character inside a string literal (`string_literal`'s `many0` body):
the five escape sequences, or any character other than a quote or
backslash. -/
def stringLitChar : P Char := fun l =>
  if leadsWith ['\\', '"'] l then some (l.drop 2, '"')
  else if leadsWith ['\\', '\\'] l then some (l.drop 2, '\\')
  else if leadsWith ['\\', 'n'] l then some (l.drop 2, '\n')
  else if leadsWith ['\\', 'r'] l then some (l.drop 2, '\r')
  else if leadsWith ['\\', 't'] l then some (l.drop 2, '\t')
  else
    match l with
    | c :: rest => if c ≠ '"' && c ≠ '\\' then some (rest, c) else none
    | [] => none

/-- Parse string literal (`string_literal` in `parser.rs`). -/
def stringLiteral : P String := fun l => do
  let (l, _) ← pchar '"' l
  let (l, cs) ← many0 stringLitChar l
  let (l, _) ← pchar '"' l
  some (l, String.mk cs)

/-- Exact numeric value of a recognized numeral, modelling the Rust
`f64` result as a rational (`s.parse::<f64>()` never fails on the
recognized syntax; its `unwrap_or(0.0)` fallback is therefore dead code,
and rounding is irrelevant to every property considered here). -/
def numeralValue (neg : Bool) (ids : List Char) (fds : Option (List Char))
    (ex : Option (Bool × List Char)) : ℚ :=
  let ipart : ℚ := (digitsToNat ids : ℚ)
  let fpart : ℚ :=
    match fds with
    | some ds => (digitsToNat ds : ℚ) / ((10 : ℚ) ^ ds.length)
    | none => 0
  let scale : ℚ :=
    match ex with
    | some (eneg, ds) =>
      if eneg then ((10 : ℚ) ^ digitsToNat ds)⁻¹ else (10 : ℚ) ^ digitsToNat ds
    | none => 1
  (if neg then -1 else 1) * (ipart + fpart) * scale

/-- Parse number literal (`number_literal` in `parser.rs`):
`recognize(tuple((opt('-'), digit1, opt(('.', digit1)), opt((e|E, opt(+|-), digit1)))))`
followed by `f64` conversion with fallback `0.0`. -/
def numberLiteral : P ℚ := fun l => do
  let (l1, sign) ← popt (pchar '-') l
  let (l2, ids) ← digit1 l1
  let fstep : List Char × Option (List Char) :=
    match pchar '.' l2 with
    | some (la, _) =>
      (match digit1 la with
       | some (lb, ds) => (lb, some ds)
       | none => (l2, none))
    | none => (l2, none)
  let l3 := fstep.1
  let estep : List Char × Option (Bool × List Char) :=
    match pOr (pchar 'e') (pchar 'E') l3 with
    | some (lc, _) =>
      let sstep : List Char × Bool :=
        match pchar '+' lc with
        | some (r, _) => (r, false)
        | none =>
          match pchar '-' lc with
          | some (r, _) => (r, true)
          | none => (lc, false)
      (match digit1 sstep.1 with
       | some (le, eds) => (le, some (sstep.2, eds))
       | none => (l3, none))
    | none => (l3, none)
  some (estep.1, numeralValue sign.isSome ids fstep.2 estep.2)

/-- Parse boolean literal (`boolean_literal` in `parser.rs`). -/
def booleanLiteral : P Bool :=
  pOr (pMap (fun _ => true) (ptag "true")) (pMap (fun _ => false) (ptag "false"))

/-- Parse line comment (`line_comment` in `parser.rs`). -/
def lineComment : P Comment := fun l => do
  let (l, _) ← ptag "//" l
  let (l, text) ← takeUntil "\n" l
  let (l, _) ← lineEnding l
  some (l, { text := rustTrim (String.mk text), comment_type := CommentType.Leading })

/-- Parse block comment (`block_comment` in `parser.rs`). -/
def blockComment : P Comment := fun l => do
  let (l, _) ← ptag "/*" l
  let (l, text) ← takeUntil "*/" l
  let (l, _) ← ptag "*/" l
  some (l, { text := rustTrim (String.mk text), comment_type := CommentType.Leading })

/-- Parse comments (`comment` in `parser.rs`). -/
def comment : P Comment := pOr lineComment blockComment

/-- Loop of `option_name`'s second alternative:
`many0(alt((preceded('.', full_identifier), delimited('[', full_identifier, ']'))))`,
re-assembling the recognized text. -/
def optionNameLoop : Nat → List Char → String → Option (List Char × String)
  | 0, _, _ => none
  | fuel + 1, l, acc =>
    match l with
    | '.' :: rest =>
      (match fullIdentifier rest with
       | some (rem, s) => optionNameLoop fuel rem (acc ++ "." ++ s)
       | none => some (l, acc))
    | '[' :: rest =>
      (match fullIdentifier rest with
       | some (rem, s) =>
         (match rem with
          | ']' :: rem2 => optionNameLoop fuel rem2 (acc ++ "[" ++ s ++ "]")
          | _ => some (l, acc))
       | none => some (l, acc))
    | _ => some (l, acc)

/-- Parse option name (`option_name` in `parser.rs`): a parenthesized full
identifier (parentheses stripped), or a full identifier with dotted and
bracket-indexed continuations. -/
def optionName : P String := fun l =>
  match (do
      let (l1, _) ← pchar '(' l
      let (l2, n) ← fullIdentifier l1
      let (l3, _) ← pchar ')' l2
      some (l3, n) : Option (List Char × String)) with
  | some r => some r
  | none =>
    match fullIdentifier l with
    | some (l1, n) => optionNameLoop (l1.length + 1) l1 n
    | none => none

/-- Insert one entry with Rust `HashMap` semantics: a duplicate key replaces
the stored value. -/
def hashMapInsert (m : List (String × OptionValue)) (k : String) (v : OptionValue) :
    List (String × OptionValue) :=
  if (m.map Prod.fst).contains k then
    m.map fun e => if e.1 = k then (k, v) else e
  else m ++ [(k, v)]

/-- The `fields.into_iter().collect::<HashMap<_, _>>()` of `message_literal`:
entries deduplicated by key (the later value wins).  A `HashMap`'s iteration
order is unspecified; this embedding canonicalises it to first-occurrence
key order, and every property that depends on the order takes the entry list
explicitly instead. -/
def hashMapCollect (fields : List (String × OptionValue)) : List (String × OptionValue) :=
  fields.foldl (fun m e => hashMapInsert m e.1 e.2) []

mutual

/-- Parse option value (`option_value` in `parser.rs`), fueled. -/
def optionValueF : Nat → P OptionValue
  | 0 => fun _ => none
  | fuel + 1 => fun l =>
    match stringLiteral l with
    | some (r, s) => some (r, OptionValue.string s)
    | none =>
      match numberLiteral l with
      | some (r, q) => some (r, OptionValue.number q)
      | none =>
        match booleanLiteral l with
        | some (r, b) => some (r, OptionValue.boolean b)
        | none =>
          match messageLiteralF fuel l with
          | some (r, flds) => some (r, OptionValue.messageLiteral flds)
          | none =>
            match identifier l with
            | some (r, s) => some (r, OptionValue.identifier s)
            | none => none

/-- Parse message field in a message literal (`message_field` in
`parser.rs`), fueled. -/
def messageFieldF : Nat → P (String × OptionValue)
  | 0 => fun _ => none
  | fuel + 1 => fun l => do
    let (l, name) ← identifier l
    let (l, _) ← space0 l
    let (l, _) ← pchar ':' l
    let (l, _) ← space0 l
    let (l, v) ← optionValueF fuel l
    some (l, (name, v))

/-- The `separated_list0(tuple((multispace0, opt(','), multispace0)), message_field)`
loop of `message_literal`, with nom 7's check that the separator consumes
(an iteration whose separator consumes nothing is a hard parse error). -/
def messageFieldsLoopF : Nat → List Char → List (String × OptionValue) →
    Option (List Char × List (String × OptionValue))
  | 0, _, _ => none
  | fuel + 1, i, acc =>
    let sepRes := (do
      let (s1, _) ← multispace0 i
      let (s2, _) ← popt (pchar ',') s1
      let (s3, _) ← multispace0 s2
      some (s3, ()) : Option (List Char × Unit))
    match sepRes with
    | none => some (i, acc.reverse)
    | some (i1, _) =>
      if i1.length = i.length then none
      else
        match messageFieldF fuel i1 with
        | none => some (i, acc.reverse)
        | some (i2, o) => messageFieldsLoopF fuel i2 (o :: acc)

/-- Parse message literal (`message_literal` in `parser.rs`), fueled. -/
def messageLiteralF : Nat → P (List (String × OptionValue))
  | 0 => fun _ => none
  | fuel + 1 => fun l => do
    let (l, _) ← pchar '{' l
    let (l, _) ← multispace0 l
    let (l, fields) ←
      (match messageFieldF fuel l with
       | none => some (l, ([] : List (String × OptionValue)))
       | some (i1, o) => messageFieldsLoopF fuel i1 [o])
    let (l, _) ← multispace0 l
    let (l, _) ← pchar '}' l
    some (l, hashMapCollect fields)

end

end ProtoHttp

namespace ProtoHttp

/-- Parse syntax statement (`syntax_statement` in `parser.rs`). -/
def syntaxStatement : P ProtocolVersion := fun l => do
  let (l, _) ← ptag "syntax" l
  let (l, _) ← space0 l
  let (l, _) ← pchar '=' l
  let (l, _) ← space0 l
  let (l, version) ←
    pOr (pMap (fun _ => ProtocolVersion.Proto2) (ptag "\"proto2\""))
        (pMap (fun _ => ProtocolVersion.Proto3) (ptag "\"proto3\"")) l
  let (l, _) ← space0 l
  let (l, _) ← pchar ';' l
  some (l, version)

/-- Parse package statement (`package_statement` in `parser.rs`). -/
def packageStatement : P String := fun l => do
  let (l, _) ← ptag "package" l
  let (l, _) ← space1 l
  let (l, package_name) ← fullIdentifier l
  let (l, _) ← space0 l
  let (l, _) ← pchar ';' l
  some (l, package_name)

/-- Parse import statement (`import_statement` in `parser.rs`). -/
def importStatement : P Import := fun l => do
  let (l, import_type) ←
    pOr (pMap (fun _ => ImportType.Public) (ptag "import public"))
        (pOr (pMap (fun _ => ImportType.Weak) (ptag "import weak"))
             (pMap (fun _ => ImportType.Normal) (ptag "import"))) l
  let (l, _) ← space1 l
  let (l, path) ← stringLiteral l
  let (l, _) ← space0 l
  let (l, _) ← pchar ';' l
  some (l, { import_type := import_type, path := path })

/-- Parse option statement (`option_statement` in `parser.rs`), fueled
through `option_value`. -/
def optionStatement (fuel : Nat) : P ProtoOption := fun l =>
  pbind (ptag "option" l) fun (l, _) =>
  pbind (space1 l) fun (l, _) =>
  pbind (optionName l) fun (l, name) =>
  pbind (space0 l) fun (l, _) =>
  pbind (pchar '=' l) fun (l, _) =>
  pbind (space0 l) fun (l, _) =>
  pbind (optionValueF fuel l) fun (l, v) =>
  pbind (space0 l) fun (l, _) =>
  pbind (pchar ';' l) fun (l, _) =>
  some (l, { name := name, value := v })

/-- Parse field label (`field_label` in `parser.rs`). -/
def fieldLabel : P FieldLabel :=
  pOr (pMap (fun _ => FieldLabel.Required) (ptag "required"))
      (pOr (pMap (fun _ => FieldLabel.Optional) (ptag "optional"))
           (pMap (fun _ => FieldLabel.Repeated) (ptag "repeated")))

/-- Parse field type (`field_type` in `parser.rs`), in source alternative
order: the fifteen scalar tags, then a message/enum type name. -/
def fieldTypeP : P FieldType :=
  pOr (pMap (fun _ => FieldType.Double) (ptag "double"))
  (pOr (pMap (fun _ => FieldType.Float) (ptag "float"))
  (pOr (pMap (fun _ => FieldType.Int32) (ptag "int32"))
  (pOr (pMap (fun _ => FieldType.Int64) (ptag "int64"))
  (pOr (pMap (fun _ => FieldType.Uint32) (ptag "uint32"))
  (pOr (pMap (fun _ => FieldType.Uint64) (ptag "uint64"))
  (pOr (pMap (fun _ => FieldType.Sint32) (ptag "sint32"))
  (pOr (pMap (fun _ => FieldType.Sint64) (ptag "sint64"))
  (pOr (pMap (fun _ => FieldType.Fixed32) (ptag "fixed32"))
  (pOr (pMap (fun _ => FieldType.Fixed64) (ptag "fixed64"))
  (pOr (pMap (fun _ => FieldType.Sfixed32) (ptag "sfixed32"))
  (pOr (pMap (fun _ => FieldType.Sfixed64) (ptag "sfixed64"))
  (pOr (pMap (fun _ => FieldType.Bool) (ptag "bool"))
  (pOr (pMap (fun _ => FieldType.String) (ptag "string"))
  (pOr (pMap (fun _ => FieldType.Bytes) (ptag "bytes"))
       (pMap (fun n => FieldType.MessageOrEnum (TypeReference.new n)) typeName)))))))))))))))

/-- Parse field number (`field_number` in `parser.rs`):
`map(digit1, |s| s.parse::<u32>().unwrap_or(0))` — a digit run that does not
fit `u32` falls back to `0`. -/
def fieldNumber : P Nat := fun l =>
  match digit1 l with
  | some (rest, ds) =>
    let n := digitsToNat ds
    some (rest, if n ≤ 4294967295 then n else 0)
  | none => none

/-- Parse field option (`field_option` in `parser.rs`). -/
def fieldOption (fuel : Nat) : P ProtoOption := fun l => do
  let (l, name) ← optionName l
  let (l, _) ← space0 l
  let (l, _) ← pchar '=' l
  let (l, _) ← space0 l
  let (l, v) ← optionValueF fuel l
  some (l, { name := name, value := v })

/-- Separator of `field_options`: `tuple((space0, char(','), space0))`. -/
def fieldOptionSep : P Unit := fun l => do
  let (l, _) ← space0 l
  let (l, _) ← pchar ',' l
  let (l, _) ← space0 l
  some (l, ())

/-- Parse field options (`field_options` in `parser.rs`). -/
def fieldOptions (fuel : Nat) : P (List ProtoOption) := fun l => do
  let (l, _) ← pchar '[' l
  let (l, opts) ← sepList0 fieldOptionSep (fieldOption fuel) l
  let (l, _) ← pchar ']' l
  some (l, opts)

/-- Parse field definition (`field_definition` in `parser.rs`). -/
def fieldDefinition (fuel : Nat) : P Field := fun l =>
  pbind (many0 comment l) fun (l, comments) =>
  pbind (multispace0 l) fun (l, _) =>
  pbind (popt fieldLabel l) fun (l, label) =>
  pbind (space0 l) fun (l, _) =>
  pbind (fieldTypeP l) fun (l, field_type) =>
  pbind (space1 l) fun (l, _) =>
  pbind (identifier l) fun (l, name) =>
  pbind (space0 l) fun (l, _) =>
  pbind (pchar '=' l) fun (l, _) =>
  pbind (space0 l) fun (l, _) =>
  pbind (fieldNumber l) fun (l, number) =>
  pbind (space0 l) fun (l, _) =>
  pbind (popt (fieldOptions fuel) l) fun (l, options) =>
  pbind (space0 l) fun (l, _) =>
  pbind (pchar ';' l) fun (l, _) =>
  some (l, { name := name, field_type := field_type, number := number
             label := label.getD FieldLabel.Optional
             options := options.getD [], comments := comments })

/-- Parse enum number (`enum_number` in `parser.rs`): an optional minus sign
and a digit run parsed as `i32` with fallback `0` on overflow, then
negated. -/
def enumNumber : P Int := fun l => do
  let (l1, sign) ← popt (pchar '-') l
  let (l2, ds) ← digit1 l1
  let n := digitsToNat ds
  let number : Int := if n ≤ 2147483647 then (n : Int) else 0
  some (l2, if sign.isSome then -number else number)

/-- Parse enum value (`enum_value` in `parser.rs`). -/
def enumValueP (fuel : Nat) : P EnumValue := fun l =>
  pbind (many0 comment l) fun (l, comments) =>
  pbind (multispace0 l) fun (l, _) =>
  pbind (identifier l) fun (l, name) =>
  pbind (space0 l) fun (l, _) =>
  pbind (pchar '=' l) fun (l, _) =>
  pbind (space0 l) fun (l, _) =>
  pbind (enumNumber l) fun (l, number) =>
  pbind (space0 l) fun (l, _) =>
  pbind (popt (fieldOptions fuel) l) fun (l, options) =>
  pbind (space0 l) fun (l, _) =>
  pbind (pchar ';' l) fun (l, _) =>
  some (l, { name := name, number := number, options := options.getD []
             comments := comments })

/-- Enum body item (`EnumBodyItem` in `parser.rs`). -/
inductive EnumBodyItem where
  | Value (v : EnumValue)
  | Option (o : ProtoOption)

/-- Parse enum body item (`enum_body_item` in `parser.rs`). -/
def enumBodyItem (fuel : Nat) : P EnumBodyItem :=
  pOr (pMap EnumBodyItem.Value (enumValueP fuel))
      (pMap EnumBodyItem.Option (optionStatement fuel))

/-- Partition loop over enum body items (the `for item in body_items` of
`enum_definition`). -/
def enumPartition (items : List EnumBodyItem) : List EnumValue × List ProtoOption :=
  items.foldl
    (fun st item =>
      match item with
      | .Value v => (st.1 ++ [v], st.2)
      | .Option o => (st.1, st.2 ++ [o]))
    ([], [])

/-- Parse enum definition (`enum_definition` in `parser.rs`). -/
def enumDefinition (fuel : Nat) : P Enum := fun l =>
  pbind (many0 comment l) fun (l, comments) =>
  pbind (multispace0 l) fun (l, _) =>
  pbind (ptag "enum" l) fun (l, _) =>
  pbind (space1 l) fun (l, _) =>
  pbind (identifier l) fun (l, name) =>
  pbind (space0 l) fun (l, _) =>
  pbind (pchar '{' l) fun (l, _) =>
  pbind (multispace0 l) fun (l, _) =>
  pbind (many0 (pTerminated (enumBodyItem fuel) multispace0) l) fun (l, body_items) =>
  pbind (pchar '}' l) fun (l, _) =>
  let parts := enumPartition body_items
  some (l, { name := name, values := parts.1, options := parts.2, comments := comments })

end ProtoHttp

namespace ProtoHttp

/-- Classification of one entry of the annotation message literal by the
`for (key, val) in fields` match of `parse_http_annotation` in `parser.rs`:
a method/path assignment (one of the five method keys with a string value),
a body assignment, or no effect. -/
def classifyAnnotEntry (e : String × OptionValue) :
    Option ((HttpMethod × String) ⊕ String) :=
  match e.1, e.2 with
  | "get", .string p => some (.inl (.Get, p))
  | "post", .string p => some (.inl (.Post, p))
  | "put", .string p => some (.inl (.Put, p))
  | "patch", .string p => some (.inl (.Patch, p))
  | "delete", .string p => some (.inl (.Delete, p))
  | "body", .string b => some (.inr b)
  | _, _ => none

/-- One step of the `for (key, val) in fields` loop of
`parse_http_annotation`, updating the mutable locals `(method, path, body)`
according to the entry's classification. -/
def applyAnnotEntry (st : Option HttpMethod × String × Option String)
    (e : String × OptionValue) : Option HttpMethod × String × Option String :=
  match classifyAnnotEntry e with
  | some (.inl (m, p)) => (some m, p, st.2.2)
  | some (.inr b) => (st.1, st.2.1, some b)
  | none => st

/-- The loop of `parse_http_annotation` over the entries of the annotation's
message literal, in a given iteration order (the Rust code iterates a
`HashMap`, whose order is unspecified and varies between runs): `method`
starts as `None`, `path` as the empty string, `additional_bindings` is a
`TODO` in the source and stays empty. -/
def parseHttpAnnotOrdered (fields : List (String × OptionValue)) : Option HttpAnnot :=
  let st := fields.foldl applyAnnotEntry (none, "", none)
  match st.1 with
  | some m => some { method := m, path := st.2.1, body := st.2.2, additional_bindings := [] }
  | none => none

/-- Parse HTTP annotation from an option value (`parse_http_annotation` in
`parser.rs`), with the embedding's canonical entry order. -/
def parseHttpAnnot (value : OptionValue) : Option HttpAnnot :=
  match value with
  | .messageLiteral fields => parseHttpAnnotOrdered fields
  | _ => none

/-- The `for option in method_options` loop of `rpc_method`: options named
`google.api.http` or `(google.api.http)` are intercepted (the annotation
variable is overwritten, even by a failed decode), all others are kept. -/
def interceptHttp (method_options : List ProtoOption) :
    Option HttpAnnot × List ProtoOption :=
  method_options.foldl
    (fun st o =>
      if o.name = "google.api.http" || o.name = "(google.api.http)" then
        (parseHttpAnnot o.value, st.2)
      else (st.1, st.2 ++ [o]))
    (none, [])

/-- The method-options alternative of `rpc_method`: a braced block of option
statements, or a bare semicolon yielding no options. -/
def methodOptionsBlock (fuel : Nat) : P (List ProtoOption) := fun l =>
  match (pbind (pchar '{' l) fun (l, _) =>
         pbind (multispace0 l) fun (l, _) =>
         pbind (many0 (pTerminated (optionStatement fuel) multispace0) l) fun (l, opts) =>
         pbind (pchar '}' l) fun (l, _) =>
         some (l, opts) : Option (List Char × List ProtoOption)) with
  | some r => some r
  | none =>
    match pchar ';' l with
    | some (l, _) => some (l, [])
    | none => none

/-- Parse RPC method (`rpc_method` in `parser.rs`). -/
def rpcMethod (fuel : Nat) : P RpcMethod := fun l =>
  pbind (many0 comment l) fun (l, comments) =>
  pbind (multispace0 l) fun (l, _) =>
  pbind (ptag "rpc" l) fun (l, _) =>
  pbind (space1 l) fun (l, _) =>
  pbind (identifier l) fun (l, name) =>
  pbind (space0 l) fun (l, _) =>
  pbind (pchar '(' l) fun (l, _) =>
  pbind (space0 l) fun (l, _) =>
  pbind (popt (ptag "stream") l) fun (l, input_stream) =>
  pbind (space0 l) fun (l, _) =>
  pbind (typeName l) fun (l, input_type_name) =>
  pbind (space0 l) fun (l, _) =>
  pbind (pchar ')' l) fun (l, _) =>
  pbind (space0 l) fun (l, _) =>
  pbind (ptag "returns" l) fun (l, _) =>
  pbind (space0 l) fun (l, _) =>
  pbind (pchar '(' l) fun (l, _) =>
  pbind (space0 l) fun (l, _) =>
  pbind (popt (ptag "stream") l) fun (l, output_stream) =>
  pbind (space0 l) fun (l, _) =>
  pbind (typeName l) fun (l, output_type_name) =>
  pbind (space0 l) fun (l, _) =>
  pbind (pchar ')' l) fun (l, _) =>
  pbind (space0 l) fun (l, _) =>
  pbind (methodOptionsBlock fuel l) fun (l, method_options) =>
  let input_type : TypeReference :=
    { name := input_type_name, package := none, is_stream := input_stream.isSome }
  let output_type : TypeReference :=
    { name := output_type_name, package := none, is_stream := output_stream.isSome }
  let intercepted := interceptHttp method_options
  some (l, { name := name, input_type := input_type, output_type := output_type
             options := intercepted.2, comments := comments
             httpAnnot := intercepted.1 })

/-- Service body item (`ServiceBodyItem` in `parser.rs`). -/
inductive ServiceBodyItem where
  | Method (m : RpcMethod)
  | Option (o : ProtoOption)

/-- Parse service body item (`service_body_item` in `parser.rs`). -/
def serviceBodyItem (fuel : Nat) : P ServiceBodyItem :=
  pOr (pMap ServiceBodyItem.Method (rpcMethod fuel))
      (pMap ServiceBodyItem.Option (optionStatement fuel))

/-- Partition loop over service body items (the `for item in body_items` of
`service_definition`). -/
def servicePartition (items : List ServiceBodyItem) : List RpcMethod × List ProtoOption :=
  items.foldl
    (fun st item =>
      match item with
      | .Method m => (st.1 ++ [m], st.2)
      | .Option o => (st.1, st.2 ++ [o]))
    ([], [])

/-- Parse service definition (`service_definition` in `parser.rs`). -/
def serviceDefinition (fuel : Nat) : P Service := fun l =>
  pbind (many0 comment l) fun (l, comments) =>
  pbind (multispace0 l) fun (l, _) =>
  pbind (ptag "service" l) fun (l, _) =>
  pbind (space1 l) fun (l, _) =>
  pbind (identifier l) fun (l, name) =>
  pbind (space0 l) fun (l, _) =>
  pbind (pchar '{' l) fun (l, _) =>
  pbind (multispace0 l) fun (l, _) =>
  pbind (many0 (pTerminated (serviceBodyItem fuel) multispace0) l) fun (l, body_items) =>
  pbind (pchar '}' l) fun (l, _) =>
  let parts := servicePartition body_items
  some (l, { name := name, methods := parts.1, options := parts.2, comments := comments })

/-- Message body item (`MessageBodyItem` in `parser.rs`). -/
inductive MessageBodyItem where
  | FieldItem (f : Field)
  | MessageItem (m : Message)
  | EnumItem (e : Enum)
  | OptionItem (o : ProtoOption)

/-- Partition loop over message body items (the `for item in body_items` of
`message_definition`). -/
def messagePartition (items : List MessageBodyItem) :
    List Field × List Message × List Enum × List ProtoOption :=
  items.foldl
    (fun st item =>
      match item with
      | .FieldItem f => (st.1 ++ [f], st.2.1, st.2.2.1, st.2.2.2)
      | .MessageItem m => (st.1, st.2.1 ++ [m], st.2.2.1, st.2.2.2)
      | .EnumItem e => (st.1, st.2.1, st.2.2.1 ++ [e], st.2.2.2)
      | .OptionItem o => (st.1, st.2.1, st.2.2.1, st.2.2.2 ++ [o]))
    ([], [], [], [])

mutual

/-- Parse message definition (`message_definition` in `parser.rs`),
fueled through the nested-message recursion. -/
def messageDefinitionF : Nat → P Message
  | 0 => fun _ => none
  | fuel + 1 => fun l =>
    pbind (many0 comment l) fun (l, comments) =>
    pbind (multispace0 l) fun (l, _) =>
    pbind (ptag "message" l) fun (l, _) =>
    pbind (space1 l) fun (l, _) =>
    pbind (identifier l) fun (l, name) =>
    pbind (space0 l) fun (l, _) =>
    pbind (pchar '{' l) fun (l, _) =>
    pbind (multispace0 l) fun (l, _) =>
    pbind (messageBodyLoopF fuel l []) fun (l, body_items) =>
    pbind (pchar '}' l) fun (l, _) =>
    let parts := messagePartition body_items
    some (l, Message.mk name parts.1 parts.2.1 parts.2.2.1 parts.2.2.2 comments)

/-- Parse message body item (`message_body_item` in `parser.rs`), in source
alternative order: field, nested message, nested enum, option. -/
def messageBodyItemF : Nat → P MessageBodyItem
  | 0 => fun _ => none
  | fuel + 1 => fun l =>
    match fieldDefinition fuel l with
    | some (r, f) => some (r, MessageBodyItem.FieldItem f)
    | none =>
      match messageDefinitionF fuel l with
      | some (r, m) => some (r, MessageBodyItem.MessageItem m)
      | none =>
        match enumDefinition fuel l with
        | some (r, e) => some (r, MessageBodyItem.EnumItem e)
        | none =>
          match optionStatement fuel l with
          | some (r, o) => some (r, MessageBodyItem.OptionItem o)
          | none => none

/-- The `many0(terminated(message_body_item, multispace0))` loop of
`message_definition`, with nom 7's non-consumption check. -/
def messageBodyLoopF : Nat → List Char → List MessageBodyItem →
    Option (List Char × List MessageBodyItem)
  | 0, _, _ => none
  | fuel + 1, l, acc =>
    match messageBodyItemF fuel l with
    | none => some (l, acc.reverse)
    | some (l1, item) =>
      let l2 := l1.dropWhile isMultispace
      if l2.length = l.length then none
      else messageBodyLoopF fuel l2 (item :: acc)

end

/-- Top-level definition (`TopLevelDefinition` in `parser.rs`). -/
inductive TopLevelDefinition where
  | Service (s : Service)
  | Message (m : Message)
  | Enum (e : Enum)

/-- Parse top-level definition (`top_level_definition` in `parser.rs`). -/
def topLevelDefinition (fuel : Nat) : P TopLevelDefinition :=
  pOr (pMap TopLevelDefinition.Service (serviceDefinition fuel))
      (pOr (pMap TopLevelDefinition.Message (messageDefinitionF fuel))
           (pMap TopLevelDefinition.Enum (enumDefinition fuel)))

/-- Partition loop over top-level definitions (the `for def in definitions`
of `proto_file`). -/
def topLevelPartition (defs : List TopLevelDefinition) :
    List Service × List Message × List Enum :=
  defs.foldl
    (fun st d =>
      match d with
      | .Service s => (st.1 ++ [s], st.2.1, st.2.2)
      | .Message m => (st.1, st.2.1 ++ [m], st.2.2)
      | .Enum e => (st.1, st.2.1, st.2.2 ++ [e]))
    ([], [], [])

/-- Parse a complete proto file (`proto_file` in `parser.rs`).  The fuel
`(l.length + 2) * 8` exceeds what any chain of nested constructs in the
input can consume (each nesting level consumes at least one character and
each fueled call decrements by one over at most eight intermediate steps),
so fuel exhaustion is unreachable and the embedding agrees with the
unbounded Rust recursion. -/
def protoFile : P ProtoFile := fun l0 =>
  let fuel := (l0.length + 2) * 8
  pbind (many0 (pOr (pMap (fun _ => ()) comment) multispace1) l0) fun (l, _) =>
  pbind (multispace0 l) fun (l, _) =>
  pbind (popt syntaxStatement l) fun (l, syn) =>
  pbind (multispace0 l) fun (l, _) =>
  pbind (popt packageStatement l) fun (l, package) =>
  pbind (multispace0 l) fun (l, _) =>
  pbind (many0 (pTerminated importStatement multispace0) l) fun (l, imports) =>
  pbind (multispace0 l) fun (l, _) =>
  pbind (many0 (pTerminated (optionStatement fuel) multispace0) l) fun (l, options) =>
  pbind (multispace0 l) fun (l, _) =>
  pbind (many0 (pTerminated (topLevelDefinition fuel) multispace0) l) fun (l, definitions) =>
  pbind (multispace0 l) fun (l, _) =>
  let parts := topLevelPartition definitions
  some (l, { syntaxVersion := syn.getD ProtocolVersion.Proto3
             package := package, imports := imports, options := options
             services := parts.1, messages := parts.2.1, enums := parts.2.2 })

end ProtoHttp

namespace ProtoHttp

/-- Parse Protocol Buffer content from a string (`parse_content` in
`parser.rs`), value part: run the grammar, then reject trailing content
unless the trimmed remainder is empty or starts with a comment marker.  The
import-resolution step that `parse_content` performs afterwards always
returns `Ok(())` and never modifies the returned `ProtoFile` (it only warms
the resolver cache — see `parseContentF`), so it does not affect this value.
The Rust code formats the nom error value into the `InvalidSyntax` message;
the embedding keeps a fixed message, which no property here inspects. -/
def parseContent (content : String) : Except ParseError ProtoFile :=
  match protoFile content.data with
  | some (remaining, pf) =>
    let rem := rustTrim (String.mk remaining)
    if rem ≠ "" && !leadsWith "//".data rem.data && !leadsWith "/*".data rem.data then
      .error (.invalidSyntax ("Unexpected content at end of file: " ++ rem))
    else .ok pf
  | none => .error (.invalidSyntax "Parse error")

/-! ## Import resolver, embedded from `parse_file` / `resolve_imports` /
`resolve_single_import` in `parser.rs`.

The parser's two `RefCell` fields become an explicit `ResolverState`
threaded through every call; the filesystem and `Path::canonicalize` become
an explicit environment.  The recursion (`parse_file` → `parse_content` →
`resolve_imports` → `resolve_single_import` → `parse_file`) is fueled, with
fuel decremented on every step; an exhausted branch reports an error and
leaves the state untouched, and every property proved below holds for all
fuel values. -/

/-- The parser's mutable resolver state: `import_cache` (keyed by canonical
path) and `import_chain` (a stack, pushed/popped at the end). -/
structure ResolverState where
  import_cache : List (String × ProtoFile)
  import_chain : List String

/-- Filesystem environment: `fs::read_to_string` (readable files only),
`Path::canonicalize().unwrap_or_else(|_| path)`, and `Path::exists`. -/
structure FsEnv where
  readToString : String → Option String
  canonicalize : String → String
  pathExists : String → Bool

/-- The parser configuration consumed by the resolver
(`ParserConfig.include_paths`). -/
structure ParserConfigM where
  include_paths : List String

/-- Cache lookup by canonical path (`HashMap::get`). -/
def cacheLookup : List (String × ProtoFile) → String → Option ProtoFile
  | [], _ => none
  | (k, v) :: rest, key => if k = key then some v else cacheLookup rest key

mutual

/-- Parse a file (`parse_file` in `parser.rs`): read the file (failing with
`FileNotFound`), canonicalize, fail with `CircularImport` when the canonical
path is already on the chain, serve from cache, otherwise push the canonical
path, parse the content (resolving imports recursively), pop it again on
success or failure, and cache a successful parse. -/
def parseFileF : Nat → FsEnv → ParserConfigM → ResolverState → String →
    Except ParseError ProtoFile × ResolverState
  | 0, _, _, st, _ => (.error (.invalidSyntax "recursion fuel exhausted"), st)
  | fuel + 1, env, cfg, st, path =>
    match env.readToString path with
    | none => (.error (.fileNotFound path), st)
    | some content =>
      let canonical_path := env.canonicalize path
      if canonical_path ∈ st.import_chain then
        (.error (.circularImport (st.import_chain ++ [canonical_path])), st)
      else
        match cacheLookup st.import_cache canonical_path with
        | some cached => (.ok cached, st)
        | none =>
          let st1 : ResolverState :=
            { st with import_chain := st.import_chain ++ [canonical_path] }
          let res := parseContentF fuel env cfg st1 content
          let st2 : ResolverState :=
            { res.2 with import_chain := res.2.import_chain.dropLast }
          match res.1 with
          | .ok pf =>
            (.ok pf, { st2 with import_cache := st2.import_cache ++ [(canonical_path, pf)] })
          | .error e => (.error e, st2)

/-- Stateful `parse_content`: the grammar and trailing-content check of
`parseContent`, followed by `resolve_imports` whenever the file has imports
(the shipped library runs with `cfg!(test)` false).  `resolve_imports`
always returns `Ok(())` and leaves the parsed file unchanged; only the
resolver state can change. -/
def parseContentF : Nat → FsEnv → ParserConfigM → ResolverState → String →
    Except ParseError ProtoFile × ResolverState
  | 0, _, _, st, _ => (.error (.invalidSyntax "recursion fuel exhausted"), st)
  | fuel + 1, env, cfg, st, content =>
    match protoFile content.data with
    | some (remaining, pf) =>
      let rem := rustTrim (String.mk remaining)
      if rem ≠ "" && !leadsWith "//".data rem.data && !leadsWith "/*".data rem.data then
        (.error (.invalidSyntax ("Unexpected content at end of file: " ++ rem)), st)
      else if pf.imports ≠ [] then
        (.ok pf, resolveImportsF fuel env cfg st pf.imports)
      else (.ok pf, st)
    | none => (.error (.invalidSyntax "Parse error"), st)

/-- The `for import in proto_file.imports` loop of `resolve_imports`:
`google/api/` paths are skipped outright, and the result of resolving any
other import is discarded whether it succeeded or failed. -/
def resolveImportsF : Nat → FsEnv → ParserConfigM → ResolverState → List Import →
    ResolverState
  | 0, _, _, st, _ => st
  | _ + 1, _, _, st, [] => st
  | fuel + 1, env, cfg, st, imp :: rest =>
    if leadsWith "google/api/".data imp.path.data then
      resolveImportsF fuel env cfg st rest
    else
      let res := resolveSingleLoopF fuel env cfg st cfg.include_paths imp.path
      resolveImportsF fuel env cfg res.2 rest

/-- The include-path loop of `resolve_single_import`: the first include
directory whose join with the import path exists is parsed via `parse_file`;
otherwise `ImportNotFound`. -/
def resolveSingleLoopF : Nat → FsEnv → ParserConfigM → ResolverState → List String →
    String → Except ParseError ProtoFile × ResolverState
  | 0, _, _, st, _, import_path => (.error (.importNotFound import_path), st)
  | _ + 1, _, _, st, [], import_path => (.error (.importNotFound import_path), st)
  | fuel + 1, env, cfg, st, include_path :: rest, import_path =>
    let full_path := include_path ++ "/" ++ import_path
    if env.pathExists full_path then parseFileF fuel env cfg st full_path
    else resolveSingleLoopF fuel env cfg st rest import_path

end

end ProtoHttp

namespace ProtoHttp

/-! ## Specification-side definitions.

These definitions formalise the words of the specification's claims (brace
groups of a template, well-formed brace nesting, non-trivia trailing
content, method-key counts); the theorems below compare them with the
embedded source functions. -/

/-- All `\x7b...\x7d` groups of a string, empty groups included: the group
content starts after a `\x7b` and runs to the next `\x7d`; an unclosed
trailing `\x7b` contributes no group. -/
def braceGroupsAux : Option (List Char) → List Char → List String
  | _, [] => []
  | none, c :: rest =>
    if c = '{' then braceGroupsAux (some []) rest
    else braceGroupsAux none rest
  | some acc, c :: rest =>
    if c = '}' then String.mk acc.reverse :: braceGroupsAux none rest
    else braceGroupsAux (some (c :: acc)) rest

/-- The `\x7b...\x7d` groups of a path template. -/
def braceGroups (s : String) : List String :=
  braceGroupsAux none s.data

/-- Well-formed brace nesting in the words of the specification: scanning
left to right with an in-parameter flag, a template is rejected on an
opening brace while already inside a parameter, on a closing brace while no
brace is open, and on an unclosed brace at the end. -/
def bracesFine : Bool → List Char → Bool
  | inside, [] => !inside
  | inside, c :: rest =>
    if c = '{' then
      if inside then false else bracesFine true rest
    else if c = '}' then
      if inside then bracesFine false rest else false
    else bracesFine inside rest

/-- Specification-side acceptance condition of `validate_path_template`: the
template is non-empty, starts with `/`, and its braces are well formed. -/
def pathTemplateOkSpec (t : String) : Bool :=
  t ≠ "" && leadsWith "/".data t.data && bracesFine false t.data

/-- State machine for the specification-side reading of "remaining input
that contains any non-whitespace, non-comment content": state 0 scans
ordinary input, state 1 is inside a `//` comment, state 2 inside a `/*`
comment, state 3 inside a `/*` comment just after a `*`.  Whitespace and
comments are skipped (an unterminated block comment runs to the end);
anything else is non-trivia content. -/
def hasNonTriviaAux : Nat → List Char → Bool
  | _, [] => false
  | 0, '/' :: '/' :: rest => hasNonTriviaAux 1 rest
  | 0, '/' :: '*' :: rest => hasNonTriviaAux 2 rest
  | 0, c :: rest => if isRustWhitespace c then hasNonTriviaAux 0 rest else true
  | 1, c :: rest => if c = '\n' then hasNonTriviaAux 0 rest else hasNonTriviaAux 1 rest
  | 2, c :: rest => if c = '*' then hasNonTriviaAux 3 rest else hasNonTriviaAux 2 rest
  | 3, c :: rest =>
    if c = '/' then hasNonTriviaAux 0 rest
    else if c = '*' then hasNonTriviaAux 3 rest
    else hasNonTriviaAux 2 rest
  | _ + 4, _ => false

/-- Whether a character list contains non-whitespace, non-comment content. -/
def hasNonTrivia (l : List Char) : Bool :=
  hasNonTriviaAux 0 l

/-- Number of HTTP-method keys (`get|post|put|patch|delete`) among the
entries of an annotation message literal. -/
def isMethodKey (k : String) : Bool :=
  k = "get" || k = "post" || k = "put" || k = "patch" || k = "delete"

/-- Count of method-key entries in an entry list. -/
def methodKeyCount (fields : List (String × OptionValue)) : Nat :=
  (fields.filter fun e => isMethodKey e.1).length

/-- Whether an HTTP method carries a request body per
`determine_request_body`: exactly POST, PUT and PATCH do. -/
def isBodyMethod : HttpMethod → Bool
  | .Post | .Put | .Patch => true
  | _ => false

/-- Whether an HTTP method is GET or DELETE (the specification's body-less
pair). -/
def isGetOrDelete : HttpMethod → Bool
  | .Get | .Delete => true
  | _ => false

/-- The number of routes the specification expects from a proto file: one
per annotated method plus one per additional binding. -/
def annCount (cfg : ExtractorConfig) (pf : ProtoFile) : Nat :=
  (pf.services.map fun s =>
    (s.methods.map fun m =>
      match extractHttpAnnot cfg m with
      | .ok (some a) => 1 + a.additional_bindings.length
      | _ => 0).sum).sum

end ProtoHttp

namespace ProtoHttp

/-! ## Concrete instances used by witnesses and counterexamples. -/

/-- A test RPC method with a directly populated annotation field. -/
def mkTestMethod (name : String) (ann : Option HttpAnnot) : RpcMethod :=
  { name := name, input_type := TypeReference.new "Req"
    output_type := TypeReference.new "Resp"
    options := [], comments := [], httpAnnot := ann }

/-- A test service. -/
def mkTestService (name : String) (ms : List RpcMethod) : Service :=
  { name := name, methods := ms, options := [], comments := [] }

/-- A test proto file consisting of services only. -/
def mkTestFile (ss : List Service) : ProtoFile :=
  { syntaxVersion := .Proto3, package := none, imports := [], options := []
    services := ss, messages := [], enums := [] }

/-- A proto file whose single method carries a `Custom` HTTP method in its
directly populated annotation (the "for testing" path of
`extract_http_annotation`). -/
def pfCustomMethod : ProtoFile :=
  mkTestFile [mkTestService "S"
    [mkTestMethod "M" (some { method := .Custom "X", path := "/a", body := none
                              additional_bindings := [] })]]

/-- A proto file exercising every standard method and body shape. -/
def pfAllMethods : ProtoFile :=
  mkTestFile [mkTestService "S"
    [ mkTestMethod "G" (some { method := .Get, path := "/g", body := none
                               additional_bindings := [] })
    , mkTestMethod "P" (some { method := .Post, path := "/p", body := some "*"
                               additional_bindings := [] })
    , mkTestMethod "U" (some { method := .Put, path := "/u", body := some "f"
                               additional_bindings := [] })
    , mkTestMethod "T" (some { method := .Patch, path := "/t", body := none
                               additional_bindings := [] })
    , mkTestMethod "D" (some { method := .Delete, path := "/d", body := none
                               additional_bindings := [] })]]

/-- A proto file whose annotation path contains an empty brace group. -/
def pfEmptyGroup : ProtoFile :=
  mkTestFile [mkTestService "S"
    [mkTestMethod "M" (some { method := .Get, path := "/a/\x7b\x7d", body := none
                              additional_bindings := [] })]]

/-- A proto file with dotted and plain path parameters. -/
def pfDottedParam : ProtoFile :=
  mkTestFile [mkTestService "S"
    [mkTestMethod "M" (some { method := .Get
                              path := "/v1/products/\x7bproduct.id\x7d/x/\x7bid\x7d"
                              body := none, additional_bindings := [] })]]

/-- A fully annotated proto file whose single annotation has an empty (hence
invalid) path template. -/
def pfEmptyPath : ProtoFile :=
  mkTestFile [mkTestService "S"
    [mkTestMethod "M" (some { method := .Get, path := "", body := none
                              additional_bindings := [] })]]

/-- A fully annotated proto file with two services and three methods. -/
def pfTwoServices : ProtoFile :=
  mkTestFile
    [ mkTestService "A"
      [ mkTestMethod "M1" (some { method := .Get, path := "/a/\x7bid\x7d", body := none
                                  additional_bindings := [] })
      , mkTestMethod "M2" (some { method := .Post, path := "/a", body := some "*"
                                  additional_bindings := [] })]
    , mkTestService "B"
      [ mkTestMethod "M3" (some { method := .Delete, path := "/b", body := none
                                  additional_bindings := [] })]]

/-- A GET route at `/a` with no body. -/
def routeGetA : HttpRoute :=
  { service_name := "S", method_name := "M1", http_method := .Get
    path_template := "/a", path_parameters := [], query_parameters := []
    request_body := none, response_type := TypeReference.new "Resp" }

/-- A route whose `Custom` method string renders as `GET`, at the same
path. -/
def routeCustomGetA : HttpRoute :=
  { service_name := "S", method_name := "M2", http_method := .Custom "GET"
    path_template := "/a", path_parameters := [], query_parameters := []
    request_body := none, response_type := TypeReference.new "Resp" }

/-- A POST route at `/a` with an entire-message body. -/
def routePostA : HttpRoute :=
  { service_name := "S", method_name := "M3", http_method := .Post
    path_template := "/a", path_parameters := [], query_parameters := []
    request_body := some RequestBody.entire_message
    response_type := TypeReference.new "Resp" }

/-- The trailing-content counterexample source: after the parsed `syntax`
statement the remaining input is a comment line followed by plain garbage. -/
def c6content : String := "syntax = \"proto3\";\n// c\ngarbage"

/-- Whether an extractor result is `Ok` (used by decidable side
conditions). -/
def isOkU : Except ValidationError Unit → Bool
  | .ok _ => true
  | .error _ => false

/-- Decidable check that no directly populated method annotation carries
additional bindings. -/
def noDirectBindings (pf : ProtoFile) : Bool :=
  pf.services.all fun s => s.methods.all fun m =>
    match m.httpAnnot with
    | some a => a.additional_bindings.isEmpty
    | none => true

/-- Decidable check that every method's annotation decodes successfully and
that its path template and every additional binding's path template
validate. -/
def allAnnotatedValid (cfg : ExtractorConfig) (pf : ProtoFile) : Bool :=
  pf.services.all fun s => s.methods.all fun m =>
    match extractHttpAnnot cfg m with
    | .ok (some a) =>
      isOkU (validatePathTemplate a.path)
        && a.additional_bindings.all fun b => isOkU (validatePathTemplate b.path)
    | _ => false

/-- A one-file environment for exercising the resolver: `a.proto` is
readable, canonicalization is the identity, and no joined include path
exists. -/
def c8env : FsEnv :=
  { readToString := fun q => if q = "a.proto" then some "syntax = \"proto3\";" else none
    canonicalize := fun q => q
    pathExists := fun _ => false }

/-- Empty include-path configuration for the resolver fixtures. -/
def c8cfg : ParserConfigM := { include_paths := [] }

/-- A resolver state whose import chain already holds `a.proto`. -/
def c8st : ResolverState := { import_cache := [], import_chain := ["a.proto"] }

/-! ## Theorems. -/

theorem mem_regexCapturesAux_ne_empty :
    ∀ (l : List Char) (st : Option (List Char)) (c : String),
      c ∈ regexCapturesAux st l → c ≠ "" := by
  intro l
  induction l with
  | nil =>
    intro st c hc
    cases st <;> simp [regexCapturesAux] at hc
  | cons x rest ih =>
    intro st c hc
    cases st with
    | none =>
      rw [regexCapturesAux] at hc
      split at hc
      · exact ih _ _ hc
      · exact ih _ _ hc
    | some acc =>
      rw [regexCapturesAux] at hc
      split at hc
      · split at hc
        · exact ih _ _ hc
        · rcases List.mem_cons.mp hc with h | h
          · subst h
            rename_i hne
            intro habs
            apply hne
            have : (String.mk acc.reverse).data = ("" : String).data := by rw [habs]
            simp at this
            simp [this]
          · exact ih _ _ h
      · exact ih _ _ hc

theorem extractPathParametersAux_ok (t : String) :
    ∀ caps : List String, (∀ c ∈ caps, c ≠ "") →
      extractPathParametersAux t caps =
        .ok (caps.map fun c =>
          PathParameter.new (normalizeParameterName c)
            (inferParameterType (normalizeParameterName c))) := by
  intro caps
  induction caps with
  | nil => intro _; rfl
  | cons c rest ih =>
    intro h
    have hc : c ≠ "" := h c (List.mem_cons_self c rest)
    rw [extractPathParametersAux]
    simp only [hc, if_false]
    rw [ih (fun x hx => h x (List.mem_cons_of_mem c hx))]
    rfl

theorem extractPathParameters_ok (t : String) (ty : TypeReference) :
    extractPathParameters t ty =
      .ok ((regexCaptures t).map fun c =>
        PathParameter.new (normalizeParameterName c)
          (inferParameterType (normalizeParameterName c))) := by
  unfold extractPathParameters
  exact extractPathParametersAux_ok t (regexCaptures t)
    (fun c hc => mem_regexCapturesAux_ne_empty _ _ _ hc)

/-- C10: `extract_path_parameters` never returns the `InvalidPathParameter`
error: every capture of the regex `\{([^}]+)\}` is non-empty, so the
empty-name branch is unreachable and the function returns `Ok` for every
path template and input type. -/
theorem C10_extractPathParameters_total (t : String) (ty : TypeReference) :
    ∃ pp, extractPathParameters t ty = .ok pp := by
  exact ⟨_, extractPathParameters_ok t ty⟩

end ProtoHttp

namespace ProtoHttp

theorem scanBraces_ok_iff :
    ∀ l : List Char,
      (scanBraces 0 false l = .ok () ↔ bracesFine false l = true)
      ∧ (scanBraces 1 true l = .ok () ↔ bracesFine true l = true) := by
  intro l
  induction l with
  | nil => constructor <;> simp [scanBraces, bracesFine]
  | cons c rest ih =>
    constructor
    · by_cases h1 : c = '{'
      · subst h1
        simpa [scanBraces, bracesFine] using ih.2
      · by_cases h2 : c = '}'
        · subst h2
          simp [scanBraces, bracesFine, h1]
        · simpa [scanBraces, bracesFine, h1, h2] using ih.1
    · by_cases h1 : c = '{'
      · subst h1
        simp [scanBraces, bracesFine]
      · by_cases h2 : c = '}'
        · subst h2
          have : ((1 : Int) - 1 < 0) = False := by simp
          simpa [scanBraces, bracesFine, h1] using ih.1
        · simpa [scanBraces, bracesFine, h1, h2] using ih.2

/-- C4: `validate_path_template` rejects exactly the empty template, a
template not starting with `/`, an opening brace inside a parameter (nested
braces), a closing brace with no brace open (unmatched closing), and an
unclosed brace at end of string (unmatched opening), and accepts every other
string; the listed concrete instances exhibit each error case, including the
specification's `/invalid/\x7bunclosed` scenario. -/
theorem C4_validatePathTemplate_characterization :
    (∀ t : String, validatePathTemplate t = .ok () ↔ pathTemplateOkSpec t = true)
    ∧ validatePathTemplate "" = .error (.invalidHttpAnnot "Empty path template" 0)
    ∧ validatePathTemplate "users" =
        .error (.invalidHttpAnnot "Path template must start with \'/\'" 0)
    ∧ validatePathTemplate "/\x7bx\x7by\x7d" =
        .error (.invalidHttpAnnot "Nested braces are not allowed in path template" 0)
    ∧ validatePathTemplate "/x\x7d" =
        .error (.invalidHttpAnnot "Unmatched closing brace in path template" 0)
    ∧ validatePathTemplate "/invalid/\x7bunclosed" =
        .error (.invalidHttpAnnot "Unmatched opening brace in path template" 0) := by
  refine ⟨?_, by rfl, by rfl, by rfl, by rfl, by rfl⟩
  intro t
  unfold validatePathTemplate pathTemplateOkSpec
  by_cases h0 : t = ""
  · simp [h0]
  · by_cases h1 : leadsWith "/".data t.data = true
    · simp only [h0, if_false, h1, Bool.not_true, if_neg]
      simpa [h0, h1] using (scanBraces_ok_iff t.data).1
    · simp [h0, h1]

end ProtoHttp

namespace ProtoHttp

theorem scanBraces_shape :
    ∀ (l : List Char) (n : Int) (b : Bool),
      scanBraces n b l = .ok () ∨ ∃ m k, scanBraces n b l = .error (.invalidHttpAnnot m k) := by
  intro l
  induction l with
  | nil =>
    intro n b
    rw [scanBraces]
    split
    · exact Or.inr ⟨_, _, rfl⟩
    · exact Or.inl rfl
  | cons c rest ih =>
    intro n b
    rw [scanBraces]
    split
    · split
      · exact Or.inr ⟨_, _, rfl⟩
      · exact ih _ _
    · split
      · split
        · exact Or.inr ⟨_, _, rfl⟩
        · exact ih _ _
      · exact ih _ _

theorem validatePathTemplate_shape (t : String) :
    validatePathTemplate t = .ok ()
    ∨ ∃ m k, validatePathTemplate t = .error (.invalidHttpAnnot m k) := by
  unfold validatePathTemplate
  split
  · exact Or.inr ⟨_, _, rfl⟩
  · split
    · exact Or.inr ⟨_, _, rfl⟩
    · exact scanBraces_shape _ _ _

theorem validateRoute_no_conflict (cfg : ExtractorConfig) (r : HttpRoute) (s1 s2 : String) :
    validateRoute cfg r ≠ .error (.conflictingRoutes s1 s2) := by
  intro habs
  unfold validateRoute at habs
  split at habs
  · rename_i e heq
    injection habs with h
    subst h
    split at heq
    · split at heq <;> (try split at heq) <;> simp_all
    · simp_all
  · rename_i heq
    rcases validatePathTemplate_shape r.path_template with h | ⟨m, k, h⟩ <;> simp_all

theorem validateRoutesLoop_no_conflict (cfg : ExtractorConfig) :
    ∀ (rs : List HttpRoute) (s1 s2 : String),
      validateRoutesLoop cfg rs ≠ .error (.conflictingRoutes s1 s2) := by
  intro rs
  induction rs with
  | nil => intro s1 s2; simp [validateRoutesLoop]
  | cons r rest ih =>
    intro s1 s2
    rw [validateRoutesLoop]
    split
    · rename_i e heq
      intro habs
      injection habs with h
      subst h
      exact validateRoute_no_conflict cfg r s1 s2 heq
    · exact ih s1 s2

theorem checkRouteConflictsAux_cases :
    ∀ (rs : List HttpRoute) (seen : List String),
      checkRouteConflictsAux seen rs = .ok ()
      ∨ ∃ sg, checkRouteConflictsAux seen rs = .error (.conflictingRoutes sg sg) := by
  intro rs
  induction rs with
  | nil => intro seen; exact Or.inl rfl
  | cons r rest ih =>
    intro seen
    rw [checkRouteConflictsAux]
    split
    · exact Or.inr ⟨_, rfl⟩
    · exact ih _

theorem checkRouteConflictsAux_ok_iff :
    ∀ (rs : List HttpRoute) (seen : List String),
      checkRouteConflictsAux seen rs = .ok ()
        ↔ ((rs.map routeSignature).Nodup ∧ ∀ sg ∈ rs.map routeSignature, sg ∉ seen) := by
  intro rs
  induction rs with
  | nil => intro seen; simp [checkRouteConflictsAux]
  | cons r rest ih =>
    intro seen
    rw [checkRouteConflictsAux]
    split
    · rename_i hmem
      simp only [List.map_cons, List.nodup_cons, List.mem_cons]
      constructor
      · intro h; simp at h
      · rintro ⟨-, hall⟩
        exact absurd hmem (hall (routeSignature r) (Or.inl rfl))
    · rename_i hmem
      rw [ih (routeSignature r :: seen)]
      simp only [List.map_cons, List.nodup_cons, List.mem_cons]
      constructor
      · rintro ⟨hnd, hall⟩
        refine ⟨⟨fun hin => ?_, hnd⟩, fun sg hsg => ?_⟩
        · exact (hall _ hin) (Or.inl rfl)
        · rcases hsg with h | h
          · subst h; exact hmem
          · intro hin
            exact (hall _ h) (Or.inr hin)
      · rintro ⟨⟨hnotin, hnd⟩, hall⟩
        refine ⟨hnd, fun sg hsg => ?_⟩
        intro hin
        rcases hin with h | h
        · subst h; exact hnotin hsg
        · exact (hall sg (Or.inr hsg)) h

theorem checkRouteConflicts_ok_iff (rs : List HttpRoute) :
    checkRouteConflicts rs = .ok () ↔ (rs.map routeSignature).Nodup := by
  unfold checkRouteConflicts
  rw [checkRouteConflictsAux_ok_iff]
  simp

/-- C5 counterexample: the two routes `GET /a` and `Custom("GET") /a` differ
in HTTP method (and so the claim requires no conflict error), yet
`validate_annotations` reports `ConflictingRoutes` because both render to
the signature string `GET /a`. -/
theorem C5_counterexample :
    routeGetA.http_method ≠ routeCustomGetA.http_method
    ∧ routeGetA.path_template = routeCustomGetA.path_template
    ∧ validateAnnots ExtractorConfig.default [routeGetA, routeCustomGetA]
        = .error (.conflictingRoutes "GET /a" "GET /a") := by
  refine ⟨by decide, rfl, rfl⟩

/-- C5 (amended): `validate_annotations` reports `ConflictingRoutes`
whenever two routes at distinct positions have identical HTTP method and
path template, and it never reports a conflict when the signature strings
`method.as_str() ++ " " ++ path` of the routes are pairwise distinct —
distinctness of the `HttpMethod` values themselves does not suffice, since a
`Custom` method may render to the same string as a standard one. -/
theorem C5_conflict_by_signature (cfg : ExtractorConfig) (rs : List HttpRoute) :
    (∀ i j, (hi : i < rs.length) → (hj : j < rs.length) → i ≠ j →
        rs[i].http_method = rs[j].http_method →
        rs[i].path_template = rs[j].path_template →
        ∃ sg, validateAnnots cfg rs = .error (.conflictingRoutes sg sg))
    ∧ ((rs.map routeSignature).Nodup →
        ∀ s1 s2, validateAnnots cfg rs ≠ .error (.conflictingRoutes s1 s2)) := by
  constructor
  · intro i j hi hj hij hm hp
    have hnotok : checkRouteConflicts rs ≠ .ok () := by
      intro hok
      rw [checkRouteConflicts_ok_iff] at hok
      have hnd := hok
      have hi2 : i < (rs.map routeSignature).length := by simpa using hi
      have hj2 : j < (rs.map routeSignature).length := by simpa using hj
      have hsig : (rs.map routeSignature)[i] = (rs.map routeSignature)[j] := by
        simp only [List.getElem_map]
        unfold routeSignature
        rw [hm, hp]
      exact hij ((List.Nodup.getElem_inj_iff hnd).mp hsig)
    rcases checkRouteConflictsAux_cases rs [] with h | ⟨sg, h⟩
    · exact absurd h hnotok
    · refine ⟨sg, ?_⟩
      unfold validateAnnots checkRouteConflicts at *
      rw [h]
  · intro hnd s1 s2
    have hok : checkRouteConflicts rs = .ok () := (checkRouteConflicts_ok_iff rs).mpr hnd
    unfold validateAnnots
    rw [hok]
    exact validateRoutesLoop_no_conflict cfg rs s1 s2

/-- C5 witness: two identical POST routes conflict, and the distinct pair
`GET /a` / `POST /a` validates without a conflict error. -/
theorem C5_conflict_by_signature_witness :
    (∃ sg, validateAnnots ExtractorConfig.default [routePostA, routePostA]
        = .error (.conflictingRoutes sg sg))
    ∧ (∀ s1 s2, validateAnnots ExtractorConfig.default [routeGetA, routePostA]
        ≠ .error (.conflictingRoutes s1 s2)) := by
  constructor
  · exact (C5_conflict_by_signature ExtractorConfig.default [routePostA, routePostA]).1
      0 1 (by decide) (by decide) (by decide) rfl rfl
  · exact (C5_conflict_by_signature ExtractorConfig.default [routeGetA, routePostA]).2
      (by decide)

end ProtoHttp

namespace ProtoHttp

theorem exceptConcatMap_ok_mem {α β ε : Type} {f : α → Except ε (List β)} :
    ∀ {xs : List α} {ys : List β} {b : β},
      exceptConcatMap f xs = .ok ys → b ∈ ys →
      ∃ x ∈ xs, ∃ zs, f x = .ok zs ∧ b ∈ zs := by
  intro xs
  induction xs with
  | nil =>
    intro ys b h hb
    injection h with h
    subst h
    simp at hb
  | cons x rest ih =>
    intro ys b h hb
    rw [exceptConcatMap] at h
    split at h
    · cases h
    · rename_i ys1 h1
      split at h
      · cases h
      · rename_i ys2 h2
        injection h with h
        subst h
        rcases List.mem_append.mp hb with hmem | hmem
        · exact ⟨x, List.mem_cons_self x rest, ys1, h1, hmem⟩
        · obtain ⟨x2, hx2, zs, hf, hz⟩ := ih h2 hmem
          exact ⟨x2, List.mem_cons_of_mem x hx2, zs, hf, hz⟩

theorem routeForBinding_shape {cfg : ExtractorConfig} {sn : String} {m : RpcMethod}
    {b : HttpBinding} {r : HttpRoute} (h : routeForBinding cfg sn m b = .ok r) :
    validatePathTemplate b.path = .ok ()
    ∧ r.service_name = sn ∧ r.method_name = m.name ∧ r.http_method = b.method
    ∧ r.path_template = b.path
    ∧ extractPathParameters b.path m.input_type = .ok r.path_parameters
    ∧ r.request_body = bindingRequestBody b := by
  unfold routeForBinding at h
  split at h
  · cases h
  · rename_i u hval
    split at h
    · cases h
    · rename_i pp hpp
      injection h with h
      subst h
      refine ⟨?_, rfl, rfl, rfl, rfl, hpp, rfl⟩
      cases u
      exact hval

theorem routesForBindings_ok_mem {cfg : ExtractorConfig} {sn : String} {m : RpcMethod} :
    ∀ {bs : List HttpBinding} {rs : List HttpRoute},
      routesForBindings cfg sn m bs = .ok rs → ∀ r ∈ rs,
      ∃ b ∈ bs, routeForBinding cfg sn m b = .ok r := by
  intro bs
  induction bs with
  | nil =>
    intro rs h r hr
    injection h with h
    subst h
    simp at hr
  | cons b rest ih =>
    intro rs h r hr
    rw [routesForBindings] at h
    split at h
    · cases h
    · rename_i r1 h1
      split at h
      · cases h
      · rename_i rs2 h2
        injection h with h
        subst h
        rcases List.mem_cons.mp hr with hmem | hmem
        · subst hmem
          exact ⟨b, List.mem_cons_self b rest, h1⟩
        · obtain ⟨b2, hb2, hf⟩ := ih h2 r hmem
          exact ⟨b2, List.mem_cons_of_mem b hb2, hf⟩

theorem routesForMethod_ok_mem {cfg : ExtractorConfig} {sn : String} {m : RpcMethod}
    {rs : List HttpRoute} (h : routesForMethod cfg sn m = .ok rs) :
    ∀ r ∈ rs, ∃ ann, extractHttpAnnot cfg m = .ok (some ann)
      ∧ ((r.service_name = sn ∧ r.method_name = m.name ∧ r.http_method = ann.method
          ∧ r.path_template = ann.path
          ∧ extractPathParameters ann.path m.input_type = .ok r.path_parameters
          ∧ r.request_body = determineRequestBody m ann)
        ∨ (∃ b ∈ ann.additional_bindings,
            r.service_name = sn ∧ r.method_name = m.name ∧ r.http_method = b.method
            ∧ r.path_template = b.path
            ∧ extractPathParameters b.path m.input_type = .ok r.path_parameters
            ∧ r.request_body = bindingRequestBody b)) := by
  intro r hr
  unfold routesForMethod at h
  split at h
  · cases h
  · injection h with h
    subst h
    simp at hr
  · rename_i ann hann
    split at h
    · cases h
    · split at h
      · cases h
      · rename_i pp hpp
        split at h
        · cases h
        · rename_i extra hextra
          injection h with h
          subst h
          rcases List.mem_cons.mp hr with hmem | hmem
          · subst hmem
            exact ⟨ann, hann, Or.inl ⟨rfl, rfl, rfl, rfl, hpp, rfl⟩⟩
          · obtain ⟨b, hb, hf⟩ := routesForBindings_ok_mem hextra r hmem
            obtain ⟨hv, h1, h2, h3, h4, h5, h6⟩ := routeForBinding_shape hf
            exact ⟨ann, hann, Or.inr ⟨b, hb, h1, h2, h3, h4, h5, h6⟩⟩

theorem extractRoutes_ok_mem {cfg : ExtractorConfig} {pf : ProtoFile}
    {routes : List HttpRoute} (h : extractRoutes cfg pf = .ok routes) :
    ∀ r ∈ routes, ∃ s ∈ pf.services, ∃ m ∈ s.methods, ∃ rs,
      routesForMethod cfg s.name m = .ok rs ∧ r ∈ rs := by
  intro r hr
  obtain ⟨s, hs, rs1, hsvc, hmem1⟩ := exceptConcatMap_ok_mem h hr
  obtain ⟨m, hm, rs2, hmth, hmem2⟩ := exceptConcatMap_ok_mem hsvc hmem1
  exact ⟨s, hs, m, hm, rs2, hmth, hmem2⟩

end ProtoHttp

namespace ProtoHttp

theorem parseHttpOptionStep_bindings_nil {cfg : ExtractorConfig}
    {st st2 : Option HttpMethod × Option String × Option String × List HttpBinding}
    {e : String × OptionValue} (h : parseHttpOptionStep cfg st e = .ok st2)
    (hnil : st.2.2.2 = []) : st2.2.2.2 = [] := by
  unfold parseHttpOptionStep at h
  repeat' split at h
  all_goals first
    | exact Except.noConfusion h
    | (injection h with h
       subst h
       try exact hnil)
  rename_i heq
  rw [show parseAdditionalBindings e.2 = (.ok [] : Except ValidationError (List HttpBinding))
        from rfl] at heq
  injection heq with heq
  subst heq
  rfl

theorem parseHttpOptionAux_bindings_nil {cfg : ExtractorConfig} :
    ∀ (fields : List (String × OptionValue))
      (st : Option HttpMethod × Option String × Option String × List HttpBinding)
      (a : HttpAnnot),
      st.2.2.2 = [] →
      parseHttpOptionAux cfg fields st = .ok (some a) →
      a.additional_bindings = [] := by
  intro fields
  induction fields with
  | nil =>
    intro st a hnil h
    rw [parseHttpOptionAux] at h
    unfold finishHttpOption at h
    split at h
    · injection h with h
      injection h with h
      subst h
      exact hnil
    · cases h
  | cons e rest ih =>
    intro st a hnil h
    rw [parseHttpOptionAux] at h
    split at h
    · cases h
    · rename_i st2 hstep
      exact ih st2 a (parseHttpOptionStep_bindings_nil hstep hnil) h

theorem extractHttpAnnot_bindings_nil {cfg : ExtractorConfig} {m : RpcMethod}
    {a : HttpAnnot}
    (hdirect : ∀ a2, m.httpAnnot = some a2 → a2.additional_bindings = [])
    (h : extractHttpAnnot cfg m = .ok (some a)) :
    a.additional_bindings = [] := by
  unfold extractHttpAnnot at h
  split at h
  · rename_i a2 ha2
    injection h with h
    injection h with h
    subst h
    exact hdirect _ ha2
  · split at h
    · rename_i v hv
      unfold parseHttpOption at h
      split at h
      · exact parseHttpOptionAux_bindings_nil _ _ _ rfl h
      · cases h
    · injection h with h
      cases h

theorem determineRequestBody_none_iff (m : RpcMethod) (a : HttpAnnot) :
    determineRequestBody m a = none ↔ isBodyMethod a.method = false := by
  obtain ⟨meth, path, body, binds⟩ := a
  cases meth <;> cases body <;>
    simp [determineRequestBody, isBodyMethod] <;>
    split <;> simp

theorem noDirectBindings_spec {pf : ProtoFile} (h : noDirectBindings pf = true) :
    ∀ s ∈ pf.services, ∀ m ∈ s.methods, ∀ a, m.httpAnnot = some a →
      a.additional_bindings = [] := by
  intro s hs m hm a ha
  unfold noDirectBindings at h
  rw [List.all_eq_true] at h
  have hs2 := h s hs
  rw [List.all_eq_true] at hs2
  have hm2 := hs2 m hm
  rw [ha] at hm2
  simpa using hm2

/-- C1 counterexample: a proto file whose method carries a `Custom("X")`
annotation yields a route whose HTTP method is neither GET nor DELETE but
whose `request_body` is `None`, refuting the claimed equivalence for routes
of `extract_routes`. -/
theorem C1_counterexample :
    ∃ r rs, extractRoutes ExtractorConfig.default pfCustomMethod = .ok (r :: rs)
      ∧ ¬(isGetOrDelete r.http_method = true ↔ r.request_body = none) := by
  refine ⟨_, _, rfl, ?_⟩
  decide

/-- C1 (amended): for proto files whose directly populated annotations carry
no additional bindings (annotations decoded from options never do — the
binding decoder is a stub returning the empty list), every extracted route
satisfies: `request_body` is `None` iff the method is not POST/PUT/PATCH, so
GET and DELETE routes have no body but a `Custom`-method route also has
none; and for POST/PUT/PATCH a body of `"*"` or an absent body yields the
entire-message request body while any other body string yields a
field-scoped body. -/
theorem C1_request_body_of_method (cfg : ExtractorConfig) (pf : ProtoFile)
    (H : ∀ s ∈ pf.services, ∀ m ∈ s.methods, ∀ a, m.httpAnnot = some a →
        a.additional_bindings = []) :
    (∀ routes, extractRoutes cfg pf = .ok routes → ∀ r ∈ routes,
        (r.request_body = none ↔ isBodyMethod r.http_method = false)
        ∧ (isGetOrDelete r.http_method = true → r.request_body = none))
    ∧ (∀ (m : RpcMethod) (a : HttpAnnot), isBodyMethod a.method = true →
        determineRequestBody m a =
          some (match a.body with
                | some b => if b = "*" then RequestBody.entire_message
                            else RequestBody.fieldBody b
                | none => RequestBody.entire_message)) := by
  constructor
  · intro routes hroutes r hr
    obtain ⟨s, hs, m, hm, rs, hmth, hmem⟩ := extractRoutes_ok_mem hroutes r hr
    obtain ⟨ann, hann, hshape⟩ := routesForMethod_ok_mem hmth r hmem
    have hnil : ann.additional_bindings = [] :=
      extractHttpAnnot_bindings_nil (H s hs m hm) hann
    rcases hshape with ⟨-, -, hmeth, -, -, hbody⟩ | ⟨b, hb, -⟩
    · constructor
      · rw [hbody, hmeth]
        exact determineRequestBody_none_iff m ann
      · intro hgd
        rw [hbody]
        rw [determineRequestBody_none_iff m ann, ← hmeth]
        revert hgd
        cases r.http_method <;> simp [isGetOrDelete, isBodyMethod]
    · rw [hnil] at hb
      simp at hb
  · intro m2 a hbm
    obtain ⟨meth, path, body, binds⟩ := a
    cases meth <;> simp [isBodyMethod] at hbm <;>
      cases body <;> simp [determineRequestBody] <;> split <;> rfl

/-- C1 witness: the amended statement applied to a proto file exercising all
five standard methods and both body shapes. -/
theorem C1_request_body_of_method_witness :
    ∃ routes, extractRoutes ExtractorConfig.default pfAllMethods = .ok routes
      ∧ ∀ r ∈ routes,
          (r.request_body = none ↔ isBodyMethod r.http_method = false)
          ∧ (isGetOrDelete r.http_method = true → r.request_body = none) := by
  refine ⟨_, rfl, ?_⟩
  exact fun r hr =>
    (C1_request_body_of_method ExtractorConfig.default pfAllMethods
      (noDirectBindings_spec (by decide))).1 _ rfl r hr

end ProtoHttp

namespace ProtoHttp

theorem stringMk_eq_empty_iff (l : List Char) : String.mk l = "" ↔ l = [] := by
  constructor
  · intro h
    exact congrArg String.data h
  · intro h
    subst h
    rfl

theorem regexCapturesAux_eq_filter :
    ∀ (l : List Char) (st : Option (List Char)),
      regexCapturesAux st l =
        (braceGroupsAux st l).filter fun g => decide (g ≠ "") := by
  intro l
  induction l with
  | nil => intro st; cases st <;> rfl
  | cons c rest ih =>
    intro st
    cases st with
    | none =>
      rw [regexCapturesAux, braceGroupsAux]
      split <;> rw [ih]
    | some acc =>
      rw [regexCapturesAux, braceGroupsAux]
      by_cases hc : c = '}'
      · subst hc
        by_cases hacc : acc.isEmpty = true
        · have hkey : String.mk acc.reverse = "" := by
            rw [stringMk_eq_empty_iff]
            simp [List.isEmpty_iff.mp hacc]
          simp [hacc, hkey, ih none]
        · have hkey : ¬(String.mk acc.reverse = "") := by
            rw [stringMk_eq_empty_iff]
            simp only [List.reverse_eq_nil_iff]
            intro h2
            exact hacc (by simp [h2])
          simp [hacc, hkey, ih none]
      · simp [hc, ih (some (c :: acc))]

theorem normalizeParameterName_ne_empty {c : String} (h : c ≠ "") :
    normalizeParameterName c ≠ "" := by
  unfold normalizeParameterName
  rw [Ne, stringMk_eq_empty_iff, List.map_eq_nil_iff]
  intro habs
  apply h
  have h2 : c = String.mk c.data := rfl
  rw [h2, habs]

/-- C2 counterexample: the annotation path `/a/\x7b\x7d` passes template
validation and produces a route, but the empty brace group `\x7b\x7d` is not
matched by the parameter regex `\{([^}]+)\}`, so the route has zero path
parameters while its path template contains one brace group. -/
theorem C2_counterexample :
    ∃ r rs, extractRoutes ExtractorConfig.default pfEmptyGroup = .ok (r :: rs)
      ∧ r.path_parameters.length ≠ (braceGroups r.path_template).length := by
  refine ⟨_, _, rfl, ?_⟩
  decide

/-- C2 (amended): for every route produced by `extract_routes`,
`path_parameters.len()` equals the number of non-empty `\x7b...\x7d` groups
in `path_template` (an empty group `\x7b\x7d` passes validation but yields
no parameter), and every extracted parameter has a non-empty name and
`required` set to `true`. -/
theorem C2_path_parameter_count (cfg : ExtractorConfig) (pf : ProtoFile) :
    ∀ routes, extractRoutes cfg pf = .ok routes → ∀ r ∈ routes,
      r.path_parameters.length =
        ((braceGroups r.path_template).filter fun g => decide (g ≠ "")).length
      ∧ ∀ p ∈ r.path_parameters, p.name ≠ "" ∧ p.required = true := by
  intro routes hroutes r hr
  obtain ⟨s, hs, m, hm, rs, hmth, hmem⟩ := extractRoutes_ok_mem hroutes r hr
  obtain ⟨ann, hann, hshape⟩ := routesForMethod_ok_mem hmth r hmem
  have key : ∀ tpl : String, extractPathParameters tpl m.input_type = .ok r.path_parameters →
      r.path_parameters.length = ((braceGroups tpl).filter fun g => decide (g ≠ "")).length
      ∧ ∀ p ∈ r.path_parameters, p.name ≠ "" ∧ p.required = true := by
    intro tpl hpp
    rw [extractPathParameters_ok tpl m.input_type] at hpp
    injection hpp with hpp
    constructor
    · rw [← hpp, List.length_map]
      unfold regexCaptures
      rw [regexCapturesAux_eq_filter]
      rfl
    · intro p hp
      rw [← hpp] at hp
      obtain ⟨c, hc, hcp⟩ := List.mem_map.mp hp
      have hcne : c ≠ "" := mem_regexCapturesAux_ne_empty _ _ _ hc
      subst hcp
      exact ⟨normalizeParameterName_ne_empty hcne, rfl⟩
  rcases hshape with ⟨-, -, -, htpl, hpp, -⟩ | ⟨b, hb, -, -, -, htpl, hpp, -⟩
  · rw [htpl]
    exact key ann.path hpp
  · rw [htpl]
    exact key b.path hpp

/-- C2 witness: the amended count and parameter facts at a route with a
dotted and a plain path parameter. -/
theorem C2_path_parameter_count_witness :
    ∃ routes, extractRoutes ExtractorConfig.default pfDottedParam = .ok routes
      ∧ ∀ r ∈ routes,
          r.path_parameters.length =
            ((braceGroups r.path_template).filter fun g => decide (g ≠ "")).length
          ∧ ∀ p ∈ r.path_parameters, p.name ≠ "" ∧ p.required = true := by
  refine ⟨_, rfl, ?_⟩
  exact fun r hr =>
    C2_path_parameter_count ExtractorConfig.default pfDottedParam _ rfl r hr

end ProtoHttp

namespace ProtoHttp

theorem isOkU_eq_ok {x : Except ValidationError Unit} (h : isOkU x = true) : x = .ok () := by
  cases x with
  | ok u => cases u; rfl
  | error e => simp [isOkU] at h

theorem exceptConcatMap_ok_of {α β ε : Type} {f : α → Except ε (List β)} (g : α → Nat) :
    ∀ xs : List α, (∀ x ∈ xs, ∃ ys, f x = .ok ys ∧ ys.length = g x) →
      ∃ zs, exceptConcatMap f xs = .ok zs ∧ zs.length = (xs.map g).sum := by
  intro xs
  induction xs with
  | nil => intro _; exact ⟨[], rfl, rfl⟩
  | cons x rest ih =>
    intro h
    obtain ⟨ys, hf, hylen⟩ := h x (List.mem_cons_self x rest)
    obtain ⟨zs, hrec, hzlen⟩ := ih fun y hy => h y (List.mem_cons_of_mem x hy)
    refine ⟨ys ++ zs, ?_, ?_⟩
    · rw [exceptConcatMap, hf, hrec]
    · simp [hylen, hzlen]

theorem routeForBinding_ok_of {cfg : ExtractorConfig} {sn : String} {m : RpcMethod}
    {b : HttpBinding} (hval : validatePathTemplate b.path = .ok ()) :
    ∃ r, routeForBinding cfg sn m b = .ok r := by
  unfold routeForBinding
  rw [hval, extractPathParameters_ok]
  exact ⟨_, rfl⟩

theorem routesForBindings_ok_of {cfg : ExtractorConfig} {sn : String} {m : RpcMethod} :
    ∀ bs : List HttpBinding, (∀ b ∈ bs, validatePathTemplate b.path = .ok ()) →
      ∃ rs, routesForBindings cfg sn m bs = .ok rs ∧ rs.length = bs.length := by
  intro bs
  induction bs with
  | nil => intro _; exact ⟨[], rfl, rfl⟩
  | cons b rest ih =>
    intro h
    obtain ⟨r, hr⟩ := routeForBinding_ok_of (h b (List.mem_cons_self b rest))
    obtain ⟨rs, hrec, hlen⟩ := ih fun b2 hb2 => h b2 (List.mem_cons_of_mem b hb2)
    refine ⟨r :: rs, ?_, ?_⟩
    · rw [routesForBindings, hr, hrec]
    · simp [hlen]

theorem routesForMethod_ok_of {cfg : ExtractorConfig} {sn : String} {m : RpcMethod}
    {ann : HttpAnnot} (hann : extractHttpAnnot cfg m = .ok (some ann))
    (hval : validatePathTemplate ann.path = .ok ())
    (hbs : ∀ b ∈ ann.additional_bindings, validatePathTemplate b.path = .ok ()) :
    ∃ rs, routesForMethod cfg sn m = .ok rs
      ∧ rs.length = 1 + ann.additional_bindings.length := by
  obtain ⟨extra, hextra, hlen⟩ := @routesForBindings_ok_of cfg sn m ann.additional_bindings hbs
  have hmain : routesForMethod cfg sn m = .ok
      ({ service_name := sn, method_name := m.name, http_method := ann.method
         path_template := ann.path
         path_parameters := (regexCaptures ann.path).map fun c =>
           PathParameter.new (normalizeParameterName c)
             (inferParameterType (normalizeParameterName c))
         query_parameters := extractQueryParameters cfg m
         request_body := determineRequestBody m ann
         response_type := m.output_type } :: extra) := by
    simp only [routesForMethod, hann, hval, extractPathParameters_ok, hextra]
  refine ⟨_, hmain, ?_⟩
  simp [hlen]
  omega

theorem allAnnotatedValid_spec {cfg : ExtractorConfig} {pf : ProtoFile}
    (h : allAnnotatedValid cfg pf = true) :
    ∀ s ∈ pf.services, ∀ m ∈ s.methods, ∃ ann,
      extractHttpAnnot cfg m = .ok (some ann)
      ∧ validatePathTemplate ann.path = .ok ()
      ∧ ∀ b ∈ ann.additional_bindings, validatePathTemplate b.path = .ok () := by
  intro s hs m hm
  unfold allAnnotatedValid at h
  rw [List.all_eq_true] at h
  have h2 := h s hs
  rw [List.all_eq_true] at h2
  have h3 := h2 m hm
  split at h3
  · rename_i a heq
    rw [Bool.and_eq_true] at h3
    refine ⟨a, heq, isOkU_eq_ok h3.1, ?_⟩
    intro b hb
    have := (List.all_eq_true.mp h3.2) b hb
    exact isOkU_eq_ok this
  · simp at h3

/-- C3 counterexample: a proto file in which every RPC method carries a
`google.api.http` annotation, yet `extract_routes` returns an error rather
than `Ok`, because the annotation's (empty) path template fails
validation. -/
theorem C3_counterexample :
    (pfEmptyPath.services.all fun s => s.methods.all fun m => m.httpAnnot.isSome) = true
    ∧ extractRoutes ExtractorConfig.default pfEmptyPath
        = .error (.invalidHttpAnnot "Empty path template" 0) := by
  exact ⟨by decide, rfl⟩

/-- C3 (amended): for every proto file in which every RPC method's annotation
decodes successfully and every path template — primary and additional
bindings — passes validation, `extract_routes` returns `Ok`, the route count
equals the number of annotated methods plus their additional-binding counts,
and each route's `service_name`/`method_name` name a service and method
present in the file.  (Without the path-validity condition `extract_routes`
can return an error instead of `Ok`.) -/
theorem C3_extraction_completeness (cfg : ExtractorConfig) (pf : ProtoFile)
    (H : ∀ s ∈ pf.services, ∀ m ∈ s.methods, ∃ ann,
        extractHttpAnnot cfg m = .ok (some ann)
        ∧ validatePathTemplate ann.path = .ok ()
        ∧ ∀ b ∈ ann.additional_bindings, validatePathTemplate b.path = .ok ()) :
    ∃ routes, extractRoutes cfg pf = .ok routes
      ∧ routes.length = annCount cfg pf
      ∧ ∀ r ∈ routes, ∃ s ∈ pf.services, r.service_name = s.name
          ∧ ∃ m ∈ s.methods, r.method_name = m.name := by
  have hsvc : ∀ s ∈ pf.services, ∃ rs, routesForService cfg s = .ok rs
      ∧ rs.length = (s.methods.map fun m =>
          match extractHttpAnnot cfg m with
          | .ok (some a) => 1 + a.additional_bindings.length
          | _ => 0).sum := by
    intro s hs
    apply exceptConcatMap_ok_of
    intro m hm
    obtain ⟨ann, hann, hval, hbs⟩ := H s hs m hm
    obtain ⟨rs, hrs, hlen⟩ := routesForMethod_ok_of hann hval hbs
    refine ⟨rs, hrs, ?_⟩
    rw [hann, hlen]
  obtain ⟨routes, hroutes, hlen⟩ :=
    exceptConcatMap_ok_of
      (fun s => (s.methods.map fun m =>
        match extractHttpAnnot cfg m with
        | .ok (some a) => 1 + a.additional_bindings.length
        | _ => 0).sum)
      pf.services hsvc
  refine ⟨routes, hroutes, hlen, ?_⟩
  intro r hr
  obtain ⟨s, hs, m, hm, rs, hmth, hmem⟩ := extractRoutes_ok_mem hroutes r hr
  obtain ⟨ann, hann, hshape⟩ := routesForMethod_ok_mem hmth r hmem
  rcases hshape with ⟨h1, h2, -⟩ | ⟨b, hb, h1, h2, -⟩
  · exact ⟨s, hs, h1, m, hm, h2⟩
  · exact ⟨s, hs, h1, m, hm, h2⟩

/-- C3 witness: the amended statement at a two-service, three-method file,
whose hypotheses are discharged by computation. -/
theorem C3_extraction_completeness_witness :
    ∃ routes, extractRoutes ExtractorConfig.default pfTwoServices = .ok routes
      ∧ routes.length = annCount ExtractorConfig.default pfTwoServices
      ∧ ∀ r ∈ routes, ∃ s ∈ pfTwoServices.services, r.service_name = s.name
          ∧ ∃ m ∈ s.methods, r.method_name = m.name :=
  C3_extraction_completeness ExtractorConfig.default pfTwoServices
    (allAnnotatedValid_spec (by decide))

end ProtoHttp

namespace ProtoHttp

theorem classifyAnnotEntry_inl_methodKey {e : String × OptionValue}
    {m : HttpMethod} {p : String}
    (h : classifyAnnotEntry e = some (.inl (m, p))) : isMethodKey e.1 = true := by
  unfold classifyAnnotEntry at h
  split at h <;> first
    | (rename_i heq1 heq2
       simp [isMethodKey, heq1]
       done)
    | cases h

theorem classifyAnnotEntry_inr_bodyKey {e : String × OptionValue} {b : String}
    (h : classifyAnnotEntry e = some (.inr b)) : e.1 = "body" := by
  unfold classifyAnnotEntry at h
  split at h <;> first
    | (rename_i heq1 heq2
       exact heq1)
    | cases h

theorem two_le_length_of_mem_ne {α : Type} {l : List α} {x y : α}
    (hx : x ∈ l) (hy : y ∈ l) (hxy : x ≠ y) : 2 ≤ l.length := by
  cases l with
  | nil => simp at hx
  | cons a rest =>
    cases rest with
    | nil =>
      simp at hx hy
      subst hx
      subst hy
      exact absurd rfl hxy
    | cons b rest2 => simp

theorem applyAnnotEntry_comm {x y : String × OptionValue} (hkeys : x.1 ≠ y.1)
    (hmm : ¬(isMethodKey x.1 = true ∧ isMethodKey y.1 = true))
    (z : Option HttpMethod × String × Option String) :
    applyAnnotEntry (applyAnnotEntry z x) y = applyAnnotEntry (applyAnnotEntry z y) x := by
  unfold applyAnnotEntry
  cases hx : classifyAnnotEntry x with
  | none => cases hy : classifyAnnotEntry y <;> rfl
  | some cx =>
    cases hy : classifyAnnotEntry y with
    | none => cases cx <;> rfl
    | some cy =>
      cases cx with
      | inl mp1 =>
        obtain ⟨m1, p1⟩ := mp1
        cases cy with
        | inl mp2 =>
          obtain ⟨m2, p2⟩ := mp2
          exact absurd
            ⟨classifyAnnotEntry_inl_methodKey hx,
             classifyAnnotEntry_inl_methodKey hy⟩ hmm
        | inr b2 => rfl
      | inr b1 =>
        cases cy with
        | inl mp2 => rfl
        | inr b2 =>
          exact absurd
            ((classifyAnnotEntry_inr_bodyKey hx).trans
              (classifyAnnotEntry_inr_bodyKey hy).symm) hkeys

/-- C7 counterexample: the entry lists `[get: "/a", post: "/b"]` and
`[post: "/b", get: "/a"]` are permutations of one another — two possible
iteration orders of the same `HashMap` — with distinct keys, yet
`parse_http_annotation` decodes them to different annotations (`POST /b`
versus `GET /a`), so two parses of the same source can disagree. -/
theorem C7_counterexample :
    ([("get", OptionValue.string "/a"), ("post", OptionValue.string "/b")] :
        List (String × OptionValue)).Perm
      [("post", OptionValue.string "/b"), ("get", OptionValue.string "/a")]
    ∧ ((["get", "post"] : List String)).Nodup
    ∧ parseHttpAnnotOrdered [("get", .string "/a"), ("post", .string "/b")]
        ≠ parseHttpAnnotOrdered [("post", .string "/b"), ("get", .string "/a")] := by
  refine ⟨List.Perm.swap _ _ _, by decide, by decide⟩

/-- C7 (amended): decoding the `google.api.http` message literal is
independent of the `HashMap` iteration order — so two calls of
`parse_content` on the same string produce structurally equal trees —
provided each annotation literal contains at most one of the
`get|post|put|patch|delete` keys; with several method keys the decoded
method and path depend on the unspecified iteration order. -/
theorem C7_order_independent (l1 l2 : List (String × OptionValue))
    (hperm : l1.Perm l2) (hnodup : (l1.map Prod.fst).Nodup)
    (hcount : methodKeyCount l1 ≤ 1) :
    parseHttpAnnotOrdered l1 = parseHttpAnnotOrdered l2 := by
  have hl1nodup : l1.Nodup := List.Nodup.of_map Prod.fst hnodup
  have hinj : ∀ x ∈ l1, ∀ y ∈ l1, x.1 = y.1 → x = y :=
    fun x hx y hy hxy => List.inj_on_of_nodup_map hnodup hx hy hxy
  have comm : ∀ x ∈ l1, ∀ y ∈ l1,
      ∀ z, applyAnnotEntry (applyAnnotEntry z x) y
        = applyAnnotEntry (applyAnnotEntry z y) x := by
    intro x hx y hy z
    by_cases hxy : x = y
    · subst hxy; rfl
    · have hkeys : x.1 ≠ y.1 := fun h => hxy (hinj x hx y hy h)
      have hmm : ¬(isMethodKey x.1 = true ∧ isMethodKey y.1 = true) := by
        rintro ⟨h1, h2⟩
        have hxf : x ∈ l1.filter fun e => isMethodKey e.1 :=
          List.mem_filter.mpr ⟨hx, h1⟩
        have hyf : y ∈ l1.filter fun e => isMethodKey e.1 :=
          List.mem_filter.mpr ⟨hy, h2⟩
        have := two_le_length_of_mem_ne hxf hyf hxy
        unfold methodKeyCount at hcount
        omega
      exact applyAnnotEntry_comm hkeys hmm z
  unfold parseHttpAnnotOrdered
  rw [hperm.foldl_eq' comm]

/-- C7 witness: order independence at a single-method-key literal and its
reversal. -/
theorem C7_order_independent_witness :
    parseHttpAnnotOrdered [("get", .string "/a"), ("body", .string "*")]
      = parseHttpAnnotOrdered [("body", .string "*"), ("get", .string "/a")] :=
  C7_order_independent _ _ (List.Perm.swap _ _ _) (by decide) (by decide)

end ProtoHttp

namespace ProtoHttp

/-- C6 counterexample: on the source `syntax = "proto3";\n// c\ngarbage` the
grammar leaves `// c\ngarbage` unconsumed — trailing content containing the
non-whitespace, non-comment word `garbage` — yet `parse_content` returns
`Ok` instead of an `InvalidSyntax` error, because its guard only tests
whether the trimmed remainder starts with a comment marker. -/
theorem C6_counterexample :
    ∃ rem pf, protoFile c6content.data = some (rem, pf)
      ∧ hasNonTrivia rem = true
      ∧ parseContent c6content = .ok pf := by
  refine ⟨_, _, rfl, ?_, rfl⟩
  decide

/-- C6 (amended): whenever the grammar-level `proto_file` parser succeeds
leaving remaining input, `parse_content` returns an `InvalidSyntax` error
exactly when the trimmed remainder is non-empty and does not start with `//`
or `/*` — a prefix test only, so trailing garbage hidden behind a leading
comment marker is accepted silently. -/
theorem C6_trailing_prefix_check (content : String) (rem : List Char) (pf : ProtoFile)
    (h : protoFile content.data = some (rem, pf)) :
    parseContent content =
      (if rustTrim (String.mk rem) ≠ ""
          && !leadsWith "//".data (rustTrim (String.mk rem)).data
          && !leadsWith "/*".data (rustTrim (String.mk rem)).data
       then .error (.invalidSyntax
              ("Unexpected content at end of file: " ++ rustTrim (String.mk rem)))
       else .ok pf) := by
  unfold parseContent
  rw [h]

/-- C6 witness: the amended characterization applied to the counterexample
source, whose trimmed remainder starts with a line-comment marker. -/
theorem C6_trailing_prefix_check_witness :
    ∃ rem pf, protoFile c6content.data = some (rem, pf)
      ∧ parseContent c6content =
          (if rustTrim (String.mk rem) ≠ ""
              && !leadsWith "//".data (rustTrim (String.mk rem)).data
              && !leadsWith "/*".data (rustTrim (String.mk rem)).data
           then .error (.invalidSyntax
                  ("Unexpected content at end of file: " ++ rustTrim (String.mk rem)))
           else .ok pf) :=
  ⟨_, _, rfl, C6_trailing_prefix_check c6content _ _ rfl⟩

end ProtoHttp

namespace ProtoHttp

theorem takeWhile_append_all {p : Char → Bool} :
    ∀ (cs rest : List Char), (∀ c ∈ cs, p c = true) →
      (∀ r, rest.head? = some r → p r = false) →
      (cs ++ rest).takeWhile p = cs ∧ (cs ++ rest).dropWhile p = rest := by
  intro cs
  induction cs with
  | nil =>
    intro rest _ hhead
    cases rest with
    | nil => exact ⟨rfl, rfl⟩
    | cons r t =>
      have hr : p r = false := hhead r rfl
      constructor
      · simp [List.takeWhile_cons, hr]
      · simp [List.dropWhile_cons, hr]
  | cons c cs ih =>
    intro rest hall hhead
    have hc : p c = true := hall c (List.mem_cons_self c cs)
    obtain ⟨h1, h2⟩ := ih rest (fun x hx => hall x (List.mem_cons_of_mem c hx)) hhead
    constructor
    · simp [List.takeWhile_cons, hc, h1]
    · simp [List.dropWhile_cons, hc, h2]

theorem digit1_append {cs rest : List Char} (hne : cs ≠ [])
    (hall : ∀ c ∈ cs, c.isDigit = true)
    (hhead : ∀ r, rest.head? = some r → r.isDigit = false) :
    digit1 (cs ++ rest) = some (rest, cs) := by
  obtain ⟨h1, h2⟩ := takeWhile_append_all cs rest hall hhead
  unfold digit1 span1
  rw [h1]
  rw [if_neg (by simp [hne])]
  rw [List.drop_left]

theorem digit_ne_minus {c : Char} (hc : c.isDigit = true) : ¬(c = '-') := by
  intro h
  rw [h] at hc
  exact absurd hc (by decide)

theorem numberLiteral_isSome (c : Char) (t : List Char) (hc : c.isDigit = true) :
    (numberLiteral (c :: t)).isSome = true := by
  have h1 : popt (pchar '-') (c :: t) = some (c :: t, none) := by
    unfold popt pchar
    simp [digit_ne_minus hc]
  have ht : (c :: t).takeWhile Char.isDigit = c :: t.takeWhile Char.isDigit := by
    simp [List.takeWhile_cons, hc]
  have h2 : digit1 (c :: t) = some ((c :: t).drop (c :: t.takeWhile Char.isDigit).length,
      c :: t.takeWhile Char.isDigit) := by
    unfold digit1 span1
    rw [ht, if_neg (by simp)]
  simp [numberLiteral, h1, h2]

/-- C9: the numeric sub-parsers never fail on an out-of-range numeral —
`field_number` parses any digit run, falling back to `0` beyond `u32`;
`enum_number` parses any optionally negated digit run, falling back to `0`
beyond `i32::MAX` before negation; and `number_literal` succeeds on any
numeral starting with a digit, so the surrounding declaration parses with
the fallback value instead of reporting an error. -/
theorem C9_numeric_fallbacks :
    (∀ (cs rest : List Char), cs ≠ [] → (∀ c ∈ cs, c.isDigit = true) →
      (∀ r, rest.head? = some r → r.isDigit = false) →
      fieldNumber (cs ++ rest)
        = some (rest, if digitsToNat cs ≤ 4294967295 then digitsToNat cs else 0))
    ∧ (∀ (neg : Bool) (cs rest : List Char), cs ≠ [] → (∀ c ∈ cs, c.isDigit = true) →
      (∀ r, rest.head? = some r → r.isDigit = false) →
      enumNumber ((if neg then ['-'] else []) ++ (cs ++ rest))
        = some (rest,
            if neg then -(if digitsToNat cs ≤ 2147483647 then (digitsToNat cs : Int) else 0)
            else (if digitsToNat cs ≤ 2147483647 then (digitsToNat cs : Int) else 0)))
    ∧ (∀ (c : Char) (t : List Char), c.isDigit = true →
        (numberLiteral (c :: t)).isSome = true) := by
  refine ⟨?_, ?_, numberLiteral_isSome⟩
  · intro cs rest hne hall hhead
    unfold fieldNumber
    rw [digit1_append hne hall hhead]
  · intro neg cs rest hne hall hhead
    cases neg with
    | true =>
      have h1 : popt (pchar '-') ('-' :: (cs ++ rest)) = some (cs ++ rest, some '-') := by
        unfold popt pchar
        simp
      show enumNumber ('-' :: (cs ++ rest)) = _
      unfold enumNumber
      rw [h1]
      simp only [Option.bind_eq_bind, Option.some_bind, digit1_append hne hall hhead]
      simp
    | false =>
      have h1 : popt (pchar '-') (cs ++ rest) = some (cs ++ rest, none) := by
        cases cs with
        | nil => exact absurd rfl hne
        | cons c0 t0 =>
          have hd : c0.isDigit = true := hall c0 (List.mem_cons_self c0 t0)
          unfold popt pchar
          simp [digit_ne_minus hd]
      show enumNumber (cs ++ rest) = _
      unfold enumNumber
      rw [h1]
      simp only [Option.bind_eq_bind, Option.some_bind, digit1_append hne hall hhead]
      simp

theorem C9_numeric_fallbacks_witness :
    fieldNumber ("4294967296".data ++ ";".data) = some (";".data, 0)
    ∧ enumNumber ((if true then ['-'] else []) ++ ("2147483648".data ++ ";".data))
        = some (";".data, 0)
    ∧ (numberLiteral ('1' :: "e999".data)).isSome = true := by
  obtain ⟨h1, h2, h3⟩ := C9_numeric_fallbacks
  refine ⟨?_, ?_, h3 '1' "e999".data (by decide)⟩
  · exact (h1 "4294967296".data ";".data (by decide) (by decide)
      (by intro r hr; simp at hr; subst hr; decide)).trans (by decide)
  · exact (h2 true "2147483648".data ";".data (by decide) (by decide)
      (by intro r hr; simp at hr; subst hr; decide)).trans (by decide)

theorem resolver_chain_restored (fuel : Nat) :
    (∀ env cfg st p, ((parseFileF fuel env cfg st p).2).import_chain = st.import_chain)
    ∧ (∀ env cfg st c, ((parseContentF fuel env cfg st c).2).import_chain = st.import_chain)
    ∧ (∀ env cfg st imps,
        (resolveImportsF fuel env cfg st imps).import_chain = st.import_chain)
    ∧ (∀ env cfg st incl ip,
        ((resolveSingleLoopF fuel env cfg st incl ip).2).import_chain = st.import_chain) := by
  induction fuel with
  | zero =>
    exact ⟨fun _ _ _ _ => rfl, fun _ _ _ _ => rfl, fun _ _ _ _ => rfl,
      fun _ _ _ _ _ => rfl⟩
  | succ fuel ih =>
    obtain ⟨ihf, ihc, ihr, ihs⟩ := ih
    refine ⟨?_, ?_, ?_, ?_⟩
    · intro env cfg st p
      simp only [parseFileF]
      split
      · rfl
      · rename_i content henv
        split
        · rfl
        · split
          · rfl
          · split
            · rename_i pf hok
              show ((parseContentF fuel env cfg
                  { st with import_chain := st.import_chain ++ [env.canonicalize p] }
                  content).2).import_chain.dropLast = st.import_chain
              rw [ihc]
              exact List.dropLast_concat
            · rename_i e herr
              show ((parseContentF fuel env cfg
                  { st with import_chain := st.import_chain ++ [env.canonicalize p] }
                  content).2).import_chain.dropLast = st.import_chain
              rw [ihc]
              exact List.dropLast_concat
    · intro env cfg st c
      simp only [parseContentF]
      split
      · split
        · rfl
        · split
          · exact ihr env cfg st _
          · rfl
      · rfl
    · intro env cfg st imps
      cases imps with
      | nil => rfl
      | cons imp rest =>
        simp only [resolveImportsF]
        split
        · exact ihr env cfg st rest
        · exact (ihr env cfg _ rest).trans (ihs env cfg st cfg.include_paths imp.path)
    · intro env cfg st incl ip
      cases incl with
      | nil => rfl
      | cons inc rest =>
        simp only [resolveSingleLoopF]
        split
        · exact ihf env cfg st _
        · exact ihs env cfg st rest ip

/-- C8: when `parse_file` is invoked on a readable path whose canonical form
is already on the import chain, it returns a `CircularImport` error whose
cycle is the current chain followed by that canonical path, leaving the
state untouched; and for every call, at every fuel, the import chain after
`parse_file` equals the chain before it (the canonical path is pushed
before recursing and popped afterwards on both success and failure). -/
theorem C8_cycle_and_chain :
    (∀ (env : FsEnv) (cfg : ParserConfigM) (st : ResolverState) (p : String)
        (fuel : Nat) (content : String),
      env.readToString p = some content →
      env.canonicalize p ∈ st.import_chain →
      parseFileF (fuel + 1) env cfg st p
        = (.error (.circularImport (st.import_chain ++ [env.canonicalize p])), st))
    ∧ (∀ fuel env cfg st p,
        ((parseFileF fuel env cfg st p).2).import_chain = st.import_chain) := by
  constructor
  · intro env cfg st p fuel content hread hmem
    simp only [parseFileF, hread]
    rw [if_pos hmem]
  · intro fuel env cfg st p
    exact (resolver_chain_restored fuel).1 env cfg st p

theorem C8_cycle_and_chain_witness :
    parseFileF 1 c8env c8cfg c8st "a.proto"
      = (.error (.circularImport (c8st.import_chain ++ [c8env.canonicalize "a.proto"])), c8st)
    ∧ ((parseFileF 5 c8env c8cfg c8st "a.proto").2).import_chain = c8st.import_chain := by
  refine ⟨C8_cycle_and_chain.1 c8env c8cfg c8st "a.proto" 0 "syntax = \"proto3\";"
      (by decide) (by decide),
    C8_cycle_and_chain.2 5 c8env c8cfg c8st "a.proto"⟩

end ProtoHttp
